import Mathlib

/-!
Verification of the cz-linear commit-message plugin.

Strings are modelled as `List Char` (`Str`).  Python string methods
(`strip`, `split`, `upper`) and the concrete regexes of the plugin are
embedded as executable Lean functions on `Str`, restricted to the ASCII
fragment the plugin works with.
-/

namespace CzLinear

abbrev Str := List Char

/-- ASCII whitespace recognized by Python `str.strip`, `str.split(None)`
and the regex class backslash-s: space, tab, newline, carriage return,
vertical tab, form feed. -/
def pyIsSpace (c : Char) : Bool :=
  c = ' ' || c = '\t' || c = '\n' || c = '\r' || c = '\x0b' || c = '\x0c'

/-- Python `str.upper` on the ASCII fragment: lowercase letters are mapped
to uppercase, everything else unchanged (spelled out letter by letter). -/
def pyToUpper (c : Char) : Char :=
  if c = 'a' then 'A' else if c = 'b' then 'B' else if c = 'c' then 'C'
  else if c = 'd' then 'D' else if c = 'e' then 'E' else if c = 'f' then 'F'
  else if c = 'g' then 'G' else if c = 'h' then 'H' else if c = 'i' then 'I'
  else if c = 'j' then 'J' else if c = 'k' then 'K' else if c = 'l' then 'L'
  else if c = 'm' then 'M' else if c = 'n' then 'N' else if c = 'o' then 'O'
  else if c = 'p' then 'P' else if c = 'q' then 'Q' else if c = 'r' then 'R'
  else if c = 's' then 'S' else if c = 't' then 'T' else if c = 'u' then 'U'
  else if c = 'v' then 'V' else if c = 'w' then 'W' else if c = 'x' then 'X'
  else if c = 'y' then 'Y' else if c = 'z' then 'Z' else c

/-- Python `str.lower` on the ASCII fragment (used for IGNORECASE
matching of the bump directive). -/
def pyToLower (c : Char) : Char :=
  if 'A' ≤ c && c ≤ 'Z' then Char.ofNat (c.toNat + 32) else c

/-- Python `str.lstrip()`. -/
def pyLStrip (s : Str) : Str := s.dropWhile pyIsSpace

/-- Python `str.rstrip()`. -/
def pyRStrip (s : Str) : Str := (s.reverse.dropWhile pyIsSpace).reverse

/-- Python `str.strip()`. -/
def pyStrip (s : Str) : Str := pyRStrip (pyLStrip s)

/-- `s.split("\n")[0]`, and also the first component of `s.split("\n", 1)`. -/
def firstLineOf (s : Str) : Str := s.takeWhile (fun c => c ≠ '\n')

/-- The second component of `s.split("\n", 1)`: `none` when the string has
no newline, otherwise everything after the first newline. -/
def bodyAfterFirstLine (s : Str) : Option Str :=
  match s.drop (firstLineOf s).length with
  | [] => none
  | _ :: r => some r

/-- Uppercase ASCII letter, the regex class `[A-Z]`. -/
def isUpperChar (c : Char) : Bool := 'A' ≤ c && c ≤ 'Z'

/-- ASCII digit, the regex class `[0-9]`. -/
def isDigitChar (c : Char) : Bool := '0' ≤ c && c ≤ '9'

/-- Python `s.split(None, 1)`: drop leading whitespace; if nothing is left
the result is empty, otherwise the first whitespace-delimited token
followed, when non-empty, by the remainder with the separating whitespace
run removed (kept verbatim, trailing whitespace included). -/
def pySplitWs1 (s : Str) : List Str :=
  let s1 := pyLStrip s
  match s1 with
  | [] => []
  | _ =>
    let tok := s1.takeWhile (fun c => !pyIsSpace c)
    let rest := pyLStrip (s1.drop tok.length)
    if rest.isEmpty then [tok] else [tok, rest]

/-- Python `s.split(None, 2)`. -/
def pySplitWs2 (s : Str) : List Str :=
  let s1 := pyLStrip s
  match s1 with
  | [] => []
  | _ =>
    let tok := s1.takeWhile (fun c => !pyIsSpace c)
    tok :: pySplitWs1 (s1.drop tok.length)

/-- constants.VERB_MAP (also duplicated verbatim as LinearCz.VERB_MAP in
cz_linear.py), in source insertion order. -/
def VERB_MAP : List (Str × Str) :=
  [ ("Changed".toList, "MAJOR".toList)
  , ("Added".toList, "MINOR".toList)
  , ("Created".toList, "MINOR".toList)
  , ("Enhanced".toList, "MINOR".toList)
  , ("Implemented".toList, "MINOR".toList)
  , ("Bumped".toList, "PATCH".toList)
  , ("Configured".toList, "PATCH".toList)
  , ("Deprecated".toList, "PATCH".toList)
  , ("Disabled".toList, "PATCH".toList)
  , ("Downgraded".toList, "PATCH".toList)
  , ("Enabled".toList, "PATCH".toList)
  , ("Fixed".toList, "PATCH".toList)
  , ("Improved".toList, "PATCH".toList)
  , ("Integrated".toList, "PATCH".toList)
  , ("Merged".toList, "PATCH".toList)
  , ("Migrated".toList, "PATCH".toList)
  , ("Optimized".toList, "PATCH".toList)
  , ("Refactored".toList, "PATCH".toList)
  , ("Released".toList, "PATCH".toList)
  , ("Removed".toList, "PATCH".toList)
  , ("Resolved".toList, "PATCH".toList)
  , ("Reverted".toList, "PATCH".toList)
  , ("Tested".toList, "PATCH".toList)
  , ("Updated".toList, "PATCH".toList)
  , ("Upgraded".toList, "PATCH".toList)
  , ("Validated".toList, "PATCH".toList)
  , ("Commented".toList, "NONE".toList)
  , ("Documented".toList, "NONE".toList)
  , ("Formatted".toList, "NONE".toList)
  , ("Replaced".toList, "NONE".toList)
  , ("Reorganized".toList, "NONE".toList)
  , ("Styled".toList, "NONE".toList)
  ]

/-- The keys of VERB_MAP in insertion order (the order of the alternation
in the generated verb regex). -/
def VERB_KEYS : List Str := VERB_MAP.map Prod.fst

/-- Python `verb in VERB_MAP` (key membership). -/
def isVerbKey (v : Str) : Bool := VERB_KEYS.contains v

/-- Python `VERB_MAP.get(verb)`. -/
def verbMapGet (v : Str) : Option Str :=
  (VERB_MAP.find? (fun p => p.1 == v)).map (fun p => p.2)

/-- constants.INCREMENT_PRIORITY together with the `.get(inc, 0)` access
used in `_determine_highest_increment`: MAJOR 3, MINOR 2, PATCH 1, NONE 0,
anything unrecognized 0. -/
def incrementPriorityGet (inc : Str) : Nat :=
  if inc = "MAJOR".toList then 3
  else if inc = "MINOR".toList then 2
  else if inc = "PATCH".toList then 1
  else 0

/-- `re.match` of COMMIT_PARSER_PATTERN, the anchored regex
`(issue_id group: [A-Z] two or more, dash, [0-9] one or more)` then
one-or-more whitespace then `(message group: rest)` on a newline-free
line.  Backtracking cannot shorten any of the greedy runs (a shorter
uppercase run is followed by an uppercase letter, not a dash; a shorter
digit run by a digit, not whitespace; a shorter whitespace run by
whitespace, which the message group then absorbs identically), so the
match is the maximal-run parse below.  Returns the two capture groups. -/
def commitPatternMatch (line : Str) : Option (Str × Str) :=
  let letters := line.takeWhile isUpperChar
  if letters.length < 2 then none
  else
    match line.drop letters.length with
    | '-' :: afterDash =>
      let ds := afterDash.takeWhile isDigitChar
      if ds.length = 0 then none
      else
        let afterDigits := afterDash.drop ds.length
        let ws := afterDigits.takeWhile pyIsSpace
        if ws.length = 0 then none
        else some (letters ++ '-' :: ds, afterDigits.drop ws.length)
    | _ => none

/-- One case-insensitive comparison step of the bump regex: does `s`
start with the literal pattern `pat` (given in lowercase), ignoring the
case of `s`? -/
def ciHasStart (pat s : Str) : Bool :=
  match pat, s with
  | [], _ => true
  | _ :: _, [] => false
  | p :: ps, c :: cs => pyToLower c = p && ciHasStart ps cs

/-- Attempt of MANUAL_BUMP_PATTERN `[bump:(major|minor|patch|none)]`
(IGNORECASE) at the current position; the alternation is tried in source
order and the matched level is returned already uppercased, modelling
`match.group(1).upper()`. -/
def bumpMatchAt (s : Str) : Option Str :=
  if ciHasStart "[bump:major]".toList s then some "MAJOR".toList
  else if ciHasStart "[bump:minor]".toList s then some "MINOR".toList
  else if ciHasStart "[bump:patch]".toList s then some "PATCH".toList
  else if ciHasStart "[bump:none]".toList s then some "NONE".toList
  else none

/-- `re.search` with MANUAL_BUMP_PATTERN: the leftmost occurrence wins. -/
def bumpSearch : Str → Option Str
  | [] => none
  | c :: cs =>
    match bumpMatchAt (c :: cs) with
    | some v => some v
    | none => bumpSearch cs

/-- CommitParser.extract_manual_bump: search the whole message for the
bump directive; an explicit NONE level is reported as no override. -/
def extract_manual_bump (message : Str) : Option Str :=
  match bumpSearch message with
  | some inc => if inc = "NONE".toList then none else some inc
  | none => none

/-- The result record of CommitParser.parse_commit. -/
structure ParsedCommit where
  issue_id : Option Str
  verb : Option Str
  description : Str
  body : Str
  manual_bump : Option Str
  deriving DecidableEq, Repr

/-- `parts[1] if len(parts) > 1 else ""`. -/
def secondOrEmpty (parts : List Str) : Str :=
  match parts with
  | _ :: d :: _ => d
  | _ => []

/-- CommitParser.parse_commit: strip the message, split off the first
line, strip first line and body, match the first line against
COMMIT_PARSER_PATTERN; on a match, take the first whitespace token of the
stripped message group as candidate verb and reclassify it as prose (verb
None, description = whole remainder) when it is not a VERB_MAP key.
`None not in VERB_MAP` holds, so an absent candidate also takes that
branch. -/
def parse_commit (msg : Str) : ParsedCommit :=
  let stripped := pyStrip msg
  let first_line := pyStrip (firstLineOf stripped)
  let body :=
    match bodyAfterFirstLine stripped with
    | some r => pyStrip r
    | none => []
  match commitPatternMatch first_line with
  | none =>
    ⟨none, none, first_line, body, extract_manual_bump msg⟩
  | some (issue_id, msgGroup) =>
    let remaining := pyStrip msgGroup
    let parts := pySplitWs1 remaining
    match parts.head? with
    | some v =>
      if isVerbKey v then
        ⟨some issue_id, some v, secondOrEmpty parts, body, extract_manual_bump msg⟩
      else
        ⟨some issue_id, none, remaining, body, extract_manual_bump msg⟩
    | none =>
      ⟨some issue_id, none, remaining, body, extract_manual_bump msg⟩

/-- CommitParser.extract_verb_from_first_line: `re.match` of the verb
regex, whose text is the COMMIT_PARSER_PATTERN issue prefix followed by
the alternation of the VERB_MAP keys in insertion order (no word
boundary).  After the shared prefix parse the alternation succeeds at the
first key that is a literal prefix of the remainder. -/
def extract_verb_from_first_line (line : Str) : Option Str :=
  match commitPatternMatch line with
  | some (_, rest) => VERB_KEYS.find? (fun k => k.isPrefixOf rest)
  | none => none

/-- CommitParser.get_increment_from_message: a truthy manual bump wins,
otherwise the verb extracted from the raw (unstripped) first line is
looked up in VERB_MAP. -/
def get_increment_from_message (message : Str) : Option Str :=
  match extract_manual_bump message with
  | some b => some b
  | none =>
    match extract_verb_from_first_line (firstLineOf message) with
    | some v => verbMapGet v
    | none => none

/-- LinearCz._check_manual_bump: compiled from the same pattern text with
the same IGNORECASE flag and the same NONE filtering as
CommitParser.extract_manual_bump. -/
def check_manual_bump (message : Str) : Option Str :=
  extract_manual_bump message

/-- LinearCz._get_increment_from_commit: match the bump regex (identical
text to the parser verb regex) against the raw first line and look the
captured verb up in VERB_MAP. -/
def get_increment_from_commit (message : Str) : Option Str :=
  match extract_verb_from_first_line (firstLineOf message) with
  | some v => verbMapGet v
  | none => none

/-- Python `max(pairs, key=lambda x: x[0])` over a nonempty list given as
head and tail: the first element attaining the maximal key wins, since a
later element replaces the accumulator only when strictly greater. -/
def pyMaxByFst (x : Nat × Str) (xs : List (Nat × Str)) : Nat × Str :=
  xs.foldl (fun acc p => if acc.1 < p.1 then p else acc) x

/-- LinearCz._determine_highest_increment: pair every increment with its
priority, take the max by priority, and report None when the best
priority is 0 or the list is empty. -/
def determine_highest_increment (increments : List Str) : Option Str :=
  match increments with
  | [] => none
  | i :: is =>
    let highest :=
      pyMaxByFst (incrementPriorityGet i, i)
        (is.map (fun inc => (incrementPriorityGet inc, inc)))
    if 0 < highest.1 then some highest.2 else none

/-- LinearCz.get_increment over the batch of commit message strings: an
empty batch yields None; otherwise the first commit whose manual-bump
check is truthy short-circuits; otherwise the truthy per-commit verb
increments are collected and reduced.  Every possible increment string is
non-empty, so Python truthiness coincides with being `some`. -/
def get_increment (commits : List Str) : Option Str :=
  if commits.isEmpty then none
  else
    match commits.findSome? check_manual_bump with
    | some inc => some inc
    | none =>
      determine_highest_increment (commits.filterMap get_increment_from_commit)

/-- constants.ISSUE_ID_PATTERN `[A-Z] two or more, dash, [0-9] one or
more` anchored at both ends, applied to an already stripped string (so
the end anchor is plain end of string). -/
def issueIdFullMatch (t : Str) : Bool :=
  let letters := t.takeWhile isUpperChar
  match t.drop letters.length with
  | '-' :: afterDash =>
    let ds := afterDash.takeWhile isDigitChar
    2 ≤ letters.length && 1 ≤ ds.length && (afterDash.drop ds.length).isEmpty
  | _ => false

/-- validators.validate_issue_id: uppercase, strip, then full-match the
issue-id pattern. -/
def validate_issue_id (issue_id : Str) : Bool :=
  issueIdFullMatch (pyStrip (issue_id.map pyToUpper))

/-- validators.MIN_DESCRIPTION_LENGTH. -/
def MIN_DESCRIPTION_LENGTH : Nat := 3

/-- validators.validate_description: trimmed length at least 3. -/
def validate_description (description : Str) : Bool :=
  MIN_DESCRIPTION_LENGTH ≤ (pyStrip description).length

/-- validators.validate_verb: exact key membership in VERB_MAP. -/
def validate_verb (verb : Str) : Bool := isVerbKey verb

/-- ASCII apostrophe, used inside the validator error strings. -/
def SQ : Char := Char.ofNat 39

/-- The literal error string "Empty commit message". -/
def emptyMsgErr : Str := "Empty commit message".toList

/-- The literal format error string of validate_commit_message. -/
def formatErr : Str :=
  "Invalid format: expected ".toList ++ SQ ::
    "<ISSUE-ID> <Verb> <description>".toList ++ [SQ]

/-- The interpolated issue-id error string of validate_commit_message. -/
def issueIdErr (issue_id : Str) : Str :=
  "Invalid issue ID format: ".toList ++ SQ :: issue_id ++ [SQ]

/-- The interpolated verb error string of validate_commit_message. -/
def verbErr (verb : Str) : Str :=
  "Invalid verb: ".toList ++ SQ :: verb ++ [SQ] ++
    " is not in the approved list".toList

/-- The description-length error string of validate_commit_message. -/
def descErr : Str :=
  "Description too short (minimum 3 characters)".toList

/-- validators.validate_commit_message: empty/whitespace-only input is
rejected first; then the stripped first line is split into at most three
whitespace fields, fewer than three is a format error; then issue id,
verb and description are checked in that order and the first failure is
reported; all passing yields (True, None). -/
def validate_commit_message (message : Str) : Bool × Option Str :=
  if (pyStrip message).isEmpty then (false, some emptyMsgErr)
  else
    let first_line := pyStrip (firstLineOf (pyStrip message))
    match pySplitWs2 first_line with
    | issue_id :: verb :: description :: _ =>
      if !validate_issue_id issue_id then (false, some (issueIdErr issue_id))
      else if !validate_verb verb then (false, some (verbErr verb))
      else if !validate_description description then (false, some descErr)
      else (true, none)
    | _ => (false, some formatErr)

/-- The four answer fields consumed by LinearCz.message (`body` models
`answers.get("body", "")`). -/
structure Answers where
  issue : Str
  verb : Str
  description : Str
  body : Str
  deriving DecidableEq, Repr

/-- LinearCz.message: `"{issue} {verb} {description}"` from the
uppercased-and-stripped issue, the verb as given and the stripped
description, with `"\n\n" + body` appended only when the stripped body is
non-empty (Python truthiness). -/
def message (answers : Answers) : Str :=
  let issue := pyStrip (answers.issue.map pyToUpper)
  let description := pyStrip answers.description
  let body := pyStrip answers.body
  let msg := issue ++ ' ' :: answers.verb ++ ' ' :: description
  if body.isEmpty then msg else msg ++ '\n' :: '\n' :: body

/-- Python rendering of an optional string in an f-string: `None` prints
as the text "None". -/
def pyStrFormat (v : Option Str) : Str :=
  match v with
  | some s => s
  | none => "None".toList

/-- Feeding a parse_commit result back into LinearCz.message: the parsed
issue_id becomes the issue answer; a parse with `issue_id = None` makes
`issue.upper()` raise AttributeError, modelled as `none`. -/
def answersOfParsed (p : ParsedCommit) : Option Answers :=
  match p.issue_id with
  | none => none
  | some i => some ⟨i, pyStrFormat p.verb, p.description, p.body⟩

/-- The round-trip `render (parse (render fields))` of the spec, `none`
when the inner parse loses the issue id and the outer render cannot
run. -/
def roundTrip (a : Answers) : Option Str :=
  (answersOfParsed (parse_commit (message a))).map message

/-- A Python value in the settings mapping: either a string or some
non-string value (`isinstance(verb, str)` fails on the latter). -/
inductive PyVal where
  | str : Str → PyVal
  | other : PyVal
  deriving DecidableEq, Repr

/-- The cz_linear section of the settings consumed by
LinearConfig._load_custom_config: the custom_verbs mapping (a Python dict,
given in insertion order) and the optional issue_pattern entry. -/
structure CzSettings where
  custom_verbs : List (PyVal × PyVal)
  issue_pattern : Option Str
  deriving DecidableEq

/-- constants.ISSUE_ID_PATTERN as a pattern string. -/
def ISSUE_ID_PATTERN_TEXT : Str := "^[A-Z]\x7b2,\x7d-[0-9]+$".toList

/-- The valid_increments set of LinearConfig._validate_custom_verbs. -/
def VALID_INCREMENTS : List Str :=
  ["MAJOR".toList, "MINOR".toList, "PATCH".toList, "NONE".toList]

/-- `isinstance(verb, str) and verb` for a custom-verb key. -/
def goodCfgKey : PyVal → Bool
  | .str k => !k.isEmpty
  | .other => false

/-- `increment in valid_increments` for a custom-verb level (a non-string
value is in no set of strings). -/
def goodCfgLevel : PyVal → Bool
  | .str v => VALID_INCREMENTS.contains v
  | .other => false

/-- LinearConfig._validate_custom_verbs raises on the first bad entry;
as a predicate, validation passes iff every entry is good. -/
def validate_custom_verbs (verbs : List (PyVal × PyVal)) : Bool :=
  verbs.all (fun kv => goodCfgKey kv.1 && goodCfgLevel kv.2)

/-- The state LinearConfig holds after loading: the custom verbs (typed,
once validation guarantees all keys and levels are strings) and the
effective issue pattern. -/
structure LinearConfigState where
  custom_verbs : List (Str × Str)
  issue_pattern : Str
  deriving DecidableEq

/-- The string pairs of a settings mapping whose keys and values are all
strings (lossless exactly on validated input). -/
def strPairs (l : List (PyVal × PyVal)) : List (Str × Str) :=
  l.filterMap (fun kv =>
    match kv with
    | (.str k, .str v) => some (k, v)
    | _ => none)

/-- LinearConfig._load_custom_config, with the Python stdlib regex
compiler abstracted as the predicate `compiles` (it is external to this
repository): a truthy custom_verbs mapping is validated, a truthy
issue_pattern is compile-checked and installed, and any failure raises
ConfigurationError, modelled as `none`. -/
def load_custom_config (compiles : Str → Bool) (s : CzSettings) : Option LinearConfigState :=
  let verbsOk := s.custom_verbs.isEmpty || validate_custom_verbs s.custom_verbs
  let patOk :=
    match s.issue_pattern with
    | some p => p.isEmpty || compiles p
    | none => true
  if verbsOk && patOk then
    some
      ⟨ strPairs s.custom_verbs
      , match s.issue_pattern with
        | some p => if p.isEmpty then ISSUE_ID_PATTERN_TEXT else p
        | none => ISSUE_ID_PATTERN_TEXT ⟩
  else none

/-- Python dict lookup on an insertion-ordered association list: a later
binding of the same key overrides an earlier one. -/
def pyDictGet (l : List (Str × Str)) (k : Str) : Option Str :=
  (l.reverse.find? (fun p => p.1 == k)).map (fun p => p.2)

/-- LinearConfig.verb_map: the dict `{**VERB_MAP, **custom_verbs}`, i.e.
the builtin bindings followed by the custom ones, custom winning on
collision under `pyDictGet`. -/
def verb_map (st : LinearConfigState) : List (Str × Str) :=
  VERB_MAP ++ st.custom_verbs

end CzLinear

namespace CzLinear

/-- Sanity check mirroring the parse_commit docstring example. -/
example :
    parse_commit "ENG-123 Fixed authentication bug".toList =
      ⟨some "ENG-123".toList, some "Fixed".toList,
       "authentication bug".toList, [], none⟩ := by decide

example :
    extract_manual_bump "ENG-123 Fixed bug\n\n[bump:major]".toList =
      some "MAJOR".toList := by decide

/-- C1: the resolver reports a manual override Y when Y is an actionable
level, and reports no increment when Y is "none".  The code contradicts
the second half (and its own info text, which promises that a bump:none
directive overrides automatic detection): extract_manual_bump maps the
matched NONE level to None, so get_increment_from_message and
get_increment fall through to verb lookup and report the verb-derived
increment.  This theorem evaluates the code at the failing input. -/
theorem c1_bump_none_ignored :
    get_increment_from_message "ENG-123 Fixed bug\n\n[bump:none]".toList =
        some "PATCH".toList
      ∧ get_increment ["ENG-123 Fixed bug\n\n[bump:none]".toList] =
        some "PATCH".toList
      ∧ extract_manual_bump "ENG-123 Fixed bug\n\n[bump:none]".toList = none := by
  decide

/-- C2 counterexample: the claim says a lowercase issue id such as in
"eng-123 Fixed bug" is normalized and parsed as ENG-123, but
parse_commit compiles COMMIT_PARSER_PATTERN without IGNORECASE and takes
the no-match branch. -/
theorem c2_counterexample :
    (parse_commit "eng-123 Fixed bug".toList).issue_id = none
      ∧ (parse_commit "eng-123 Fixed bug".toList).verb = none
      ∧ (parse_commit "eng-123 Fixed bug".toList).description =
          "eng-123 Fixed bug".toList := by
  decide

/-- C2 amended: parse_commit matches the first line against the
uppercase-only pattern case-sensitively and performs no normalization, so
any first line starting with a lowercase letter (in particular a
lowercase issue id) falls into the no-match branch where issue_id and
verb are undefined and the whole first line is the description. -/
theorem c2_lowercase_first_line_unmatched (m : Str) (c : Char) (t : Str)
    (hline : pyStrip (firstLineOf (pyStrip m)) = c :: t)
    (hlo : 'a' ≤ c) (hhi : c ≤ 'z') :
    (parse_commit m).issue_id = none ∧ (parse_commit m).verb = none ∧
      (parse_commit m).description = pyStrip (firstLineOf (pyStrip m)) := by
  have hupc : isUpperChar c = false := by
    have hz : ¬ (c ≤ 'Z') := fun h => absurd (le_trans hlo h) (by decide)
    simp [isUpperChar, hz]
  have hcm : commitPatternMatch (pyStrip (firstLineOf (pyStrip m))) = none := by
    rw [hline]
    simp [commitPatternMatch, List.takeWhile, hupc]
  simp [parse_commit, hcm]

/-- C2 amended, witness at the concrete lowercase input. -/
theorem c2_lowercase_first_line_unmatched_witness :
    (pyStrip (firstLineOf (pyStrip "eng-123 Fixed bug".toList)) =
        'e' :: "ng-123 Fixed bug".toList)
      ∧ ((parse_commit "eng-123 Fixed bug".toList).issue_id = none
          ∧ (parse_commit "eng-123 Fixed bug".toList).verb = none
          ∧ (parse_commit "eng-123 Fixed bug".toList).description =
              pyStrip (firstLineOf (pyStrip "eng-123 Fixed bug".toList))) :=
  ⟨by decide,
   c2_lowercase_first_line_unmatched "eng-123 Fixed bug".toList 'e'
     "ng-123 Fixed bug".toList (by decide) (by decide) (by decide)⟩

/-- C4: in a batch where some commit carries a manual override (in the
code's sense: _check_manual_bump returns a truthy level), get_increment
returns the level of the first such commit, whatever the verb-derived
increments of any commit are and whatever overrides later commits carry. -/
theorem c4_first_manual_override_wins (pre post : List Str) (m y : Str)
    (hpre : ∀ p ∈ pre, check_manual_bump p = none)
    (hm : check_manual_bump m = some y) :
    get_increment (pre ++ m :: post) = some y := by
  have hne : (pre ++ m :: post).isEmpty = false := by
    cases pre <;> simp
  have hfind : ∀ (l : List Str), (∀ p ∈ l, check_manual_bump p = none) →
      List.findSome? check_manual_bump (l ++ m :: post) = some y := by
    intro l hl
    induction l with
    | nil => simp [List.findSome?_cons, hm]
    | cons a t ih =>
      have ha := hl a (List.mem_cons_self a t)
      simp only [List.cons_append, List.findSome?_cons, ha]
      exact ih (fun p hp => hl p (List.mem_cons_of_mem a hp))
  simp [get_increment, hne, hfind pre hpre]

/-- C4 witness: the first override (bump:patch) wins over a later,
higher override (bump:major) and over every verb-derived increment. -/
theorem c4_first_manual_override_wins_witness :
    check_manual_bump "BB-2 Added y\n\n[bump:patch]".toList =
        some "PATCH".toList
      ∧ get_increment
          (["AA-1 Fixed x".toList] ++
            "BB-2 Added y\n\n[bump:patch]".toList ::
              ["CC-3 Changed z\n\n[bump:major]".toList]) =
          some "PATCH".toList :=
  ⟨by decide,
   c4_first_manual_override_wins ["AA-1 Fixed x".toList]
     ["CC-3 Changed z\n\n[bump:major]".toList]
     "BB-2 Added y\n\n[bump:patch]".toList "PATCH".toList
     (by decide) (by decide)⟩

/-- C5: when the first line matches the issue-id pattern but the first
whitespace-delimited token of the (stripped) rest is not a VERB_MAP key,
parse_commit leaves the verb undefined and uses the entire rest as the
description; parsing never fails on an unrecognized verb token. -/
theorem c5_unknown_verb_reclassified (m issue rest v : Str)
    (hmatch : commitPatternMatch (pyStrip (firstLineOf (pyStrip m))) =
      some (issue, rest))
    (htok : (pySplitWs1 (pyStrip rest)).head? = some v)
    (hnk : isVerbKey v = false) :
    (parse_commit m).verb = none ∧
      (parse_commit m).description = pyStrip rest := by
  simp [parse_commit, hmatch, htok, hnk]

/-- C5 witness at the concrete input of the repository's own test. -/
theorem c5_unknown_verb_reclassified_witness :
    (commitPatternMatch
        (pyStrip (firstLineOf (pyStrip "ENG-123 Fixing authentication bug".toList))) =
        some ("ENG-123".toList, "Fixing authentication bug".toList))
      ∧ ((parse_commit "ENG-123 Fixing authentication bug".toList).verb = none
          ∧ (parse_commit "ENG-123 Fixing authentication bug".toList).description =
              pyStrip "Fixing authentication bug".toList) :=
  ⟨by decide,
   c5_unknown_verb_reclassified "ENG-123 Fixing authentication bug".toList
     "ENG-123".toList "Fixing authentication bug".toList "Fixing".toList
     (by decide) (by decide) (by decide)⟩

/-- Uppercasing never turns a character into whitespace or out of it. -/
lemma pyIsSpace_pyToUpper (c : Char) : pyIsSpace (pyToUpper c) = pyIsSpace c := by
  unfold pyToUpper
  by_cases ha : c = 'a'
  · subst ha; decide
  rw [if_neg ha]
  by_cases hb : c = 'b'
  · subst hb; decide
  rw [if_neg hb]
  by_cases hc : c = 'c'
  · subst hc; decide
  rw [if_neg hc]
  by_cases hd : c = 'd'
  · subst hd; decide
  rw [if_neg hd]
  by_cases he : c = 'e'
  · subst he; decide
  rw [if_neg he]
  by_cases hf : c = 'f'
  · subst hf; decide
  rw [if_neg hf]
  by_cases hg : c = 'g'
  · subst hg; decide
  rw [if_neg hg]
  by_cases hh : c = 'h'
  · subst hh; decide
  rw [if_neg hh]
  by_cases hi : c = 'i'
  · subst hi; decide
  rw [if_neg hi]
  by_cases hj : c = 'j'
  · subst hj; decide
  rw [if_neg hj]
  by_cases hk : c = 'k'
  · subst hk; decide
  rw [if_neg hk]
  by_cases hl : c = 'l'
  · subst hl; decide
  rw [if_neg hl]
  by_cases hm : c = 'm'
  · subst hm; decide
  rw [if_neg hm]
  by_cases hn : c = 'n'
  · subst hn; decide
  rw [if_neg hn]
  by_cases ho : c = 'o'
  · subst ho; decide
  rw [if_neg ho]
  by_cases hp : c = 'p'
  · subst hp; decide
  rw [if_neg hp]
  by_cases hq : c = 'q'
  · subst hq; decide
  rw [if_neg hq]
  by_cases hr : c = 'r'
  · subst hr; decide
  rw [if_neg hr]
  by_cases hs : c = 's'
  · subst hs; decide
  rw [if_neg hs]
  by_cases ht : c = 't'
  · subst ht; decide
  rw [if_neg ht]
  by_cases hu : c = 'u'
  · subst hu; decide
  rw [if_neg hu]
  by_cases hv : c = 'v'
  · subst hv; decide
  rw [if_neg hv]
  by_cases hw : c = 'w'
  · subst hw; decide
  rw [if_neg hw]
  by_cases hx : c = 'x'
  · subst hx; decide
  rw [if_neg hx]
  by_cases hy : c = 'y'
  · subst hy; decide
  rw [if_neg hy]
  by_cases hz : c = 'z'
  · subst hz; decide
  rw [if_neg hz]

/-- `dropWhile` commutes with `map f` when `f` preserves the predicate. -/
lemma dropWhile_map_comm (f : Char → Char) (p : Char → Bool)
    (h : ∀ c, p (f c) = p c) (s : Str) :
    (s.map f).dropWhile p = (s.dropWhile p).map f := by
  induction s with
  | nil => rfl
  | cons c t ih =>
    simp only [List.map_cons, List.dropWhile_cons, h c]
    cases hc : p c <;> simp [hc, ih]

/-- Stripping commutes with `map f` when `f` preserves whitespace-ness. -/
lemma pyStrip_map_comm (f : Char → Char)
    (h : ∀ c, pyIsSpace (f c) = pyIsSpace c) (s : Str) :
    pyStrip (s.map f) = (pyStrip s).map f := by
  unfold pyStrip pyLStrip pyRStrip
  rw [dropWhile_map_comm f pyIsSpace h, ← List.map_reverse,
    dropWhile_map_comm f pyIsSpace h, List.map_reverse]

/-- The first line of the rendered message as the spec words it: the
issue id trimmed and uppercased, a space, the verb, a space, the
description. -/
def specHeader (a : Answers) : Str :=
  (pyStrip a.issue).map pyToUpper ++ ' ' :: a.verb ++ ' ' :: pyStrip a.description

/-- C8: the rendered message is the header with the issue id uppercased
and trimmed, followed by a blank line and the body exactly when the body
is non-empty after trimming, and with no body suffix otherwise. -/
theorem c8_render_shape (a : Answers) :
    (pyStrip a.body = [] → message a = specHeader a)
      ∧ (pyStrip a.body ≠ [] →
          message a = specHeader a ++ '\n' :: '\n' :: pyStrip a.body) := by
  have hcomm : pyStrip (a.issue.map pyToUpper) = (pyStrip a.issue).map pyToUpper :=
    pyStrip_map_comm pyToUpper pyIsSpace_pyToUpper a.issue
  constructor
  · intro hb
    simp [message, specHeader, hb, hcomm]
  · intro hb
    have hne : (pyStrip a.body).isEmpty = false := by
      cases h : pyStrip a.body with
      | nil => exact absurd h hb
      | cons x xs => simp
    simp [message, specHeader, hne, hcomm]

/-- Python max keeps an element of the traversed list. -/
lemma pyMaxByFst_mem (x : Nat × Str) (xs : List (Nat × Str)) :
    pyMaxByFst x xs ∈ x :: xs := by
  induction xs generalizing x with
  | nil => simp [pyMaxByFst]
  | cons y ys ih =>
    simp only [pyMaxByFst, List.foldl_cons]
    have h := ih (if x.1 < y.1 then y else x)
    simp only [pyMaxByFst] at h
    rcases List.mem_cons.mp h with h | h
    · rw [h]
      split
      · exact List.mem_cons_of_mem _ (List.mem_cons_self _ _)
      · exact List.mem_cons_self _ _
    · exact List.mem_cons_of_mem _ (List.mem_cons_of_mem _ h)

/-- Python max dominates every traversed element in its key. -/
lemma pyMaxByFst_le (x : Nat × Str) (xs : List (Nat × Str)) :
    ∀ z ∈ x :: xs, z.1 ≤ (pyMaxByFst x xs).1 := by
  induction xs generalizing x with
  | nil =>
    intro z hz
    rcases List.mem_cons.mp hz with h | h
    · rw [h]; exact le_refl _
    · cases h
  | cons y ys ih =>
    intro z hz
    have hstep : z ∈ (if x.1 < y.1 then y else x) :: ys ∨ z = x ∨ z = y := by
      rcases List.mem_cons.mp hz with h | h
      · right; left; exact h
      · rcases List.mem_cons.mp h with h | h
        · right; right; exact h
        · left; exact List.mem_cons_of_mem _ h
    have hresult : pyMaxByFst x (y :: ys) =
        pyMaxByFst (if x.1 < y.1 then y else x) ys := by
      simp only [pyMaxByFst, List.foldl_cons]
    have hxle : x.1 ≤ (if x.1 < y.1 then y else x).1 := by
      split
      · omega
      · exact le_refl _
    have hyle : y.1 ≤ (if x.1 < y.1 then y else x).1 := by
      split
      · exact le_refl _
      · omega
    rw [hresult]
    rcases hstep with h | h | h
    · exact ih _ z h
    · rw [h]
      exact le_trans hxle (ih _ _ (List.mem_cons_self _ _))
    · rw [h]
      exact le_trans hyle (ih _ _ (List.mem_cons_self _ _))

/-- The increment priority function takes each positive value at exactly
one string. -/
lemma incrementPriorityGet_cases (s : Str) :
    (s = "MAJOR".toList ∧ incrementPriorityGet s = 3)
      ∨ (s = "MINOR".toList ∧ incrementPriorityGet s = 2)
      ∨ (s = "PATCH".toList ∧ incrementPriorityGet s = 1)
      ∨ incrementPriorityGet s = 0 := by
  by_cases h1 : s = "MAJOR".toList
  · left; exact ⟨h1, by unfold incrementPriorityGet; rw [if_pos h1]⟩
  by_cases h2 : s = "MINOR".toList
  · right; left
    exact ⟨h2, by unfold incrementPriorityGet; rw [if_neg h1, if_pos h2]⟩
  by_cases h3 : s = "PATCH".toList
  · right; right; left
    exact ⟨h3, by unfold incrementPriorityGet; rw [if_neg h1, if_neg h2, if_pos h3]⟩
  right; right; right
  unfold incrementPriorityGet
  rw [if_neg h1, if_neg h2, if_neg h3]

/-- The Python max over the priority pairs of a nonempty increments list:
it is the pair of one of the increments, and its priority dominates all. -/
lemma dhi_max_spec (i : Str) (is : List Str) :
    (∃ inc ∈ i :: is,
        pyMaxByFst (incrementPriorityGet i, i)
            (is.map (fun inc => (incrementPriorityGet inc, inc))) =
          (incrementPriorityGet inc, inc))
      ∧ ∀ t ∈ i :: is,
          incrementPriorityGet t ≤
            (pyMaxByFst (incrementPriorityGet i, i)
              (is.map (fun inc => (incrementPriorityGet inc, inc)))).1 := by
  constructor
  · have h := pyMaxByFst_mem (incrementPriorityGet i, i)
      (is.map (fun inc => (incrementPriorityGet inc, inc)))
    have h2 : pyMaxByFst (incrementPriorityGet i, i)
        (is.map (fun inc => (incrementPriorityGet inc, inc))) ∈
          (i :: is).map (fun inc => (incrementPriorityGet inc, inc)) := by
      rw [List.map_cons]; exact h
    rcases List.mem_map.mp h2 with ⟨inc, hmem, heq⟩
    exact ⟨inc, hmem, heq.symm⟩
  · intro t ht
    have hz : (incrementPriorityGet t, t) ∈
        (incrementPriorityGet i, i) ::
          is.map (fun inc => (incrementPriorityGet inc, inc)) := by
      rcases List.mem_cons.mp ht with h | h
      · subst h; exact List.mem_cons_self _ _
      · exact List.mem_cons_of_mem _ (List.mem_map_of_mem _ h)
    exact pyMaxByFst_le _ _ _ hz

/-- determine_highest_increment reports none exactly when every collected
increment has priority 0 (or the list is empty). -/
lemma dhi_none_iff (l : List Str) :
    determine_highest_increment l = none ↔
      ∀ s ∈ l, incrementPriorityGet s = 0 := by
  cases l with
  | nil => simp [determine_highest_increment]
  | cons i is =>
    obtain ⟨⟨inc, hmem, heq⟩, hdom⟩ := dhi_max_spec i is
    have hd : determine_highest_increment (i :: is) =
        if 0 < (pyMaxByFst (incrementPriorityGet i, i)
            (is.map (fun inc => (incrementPriorityGet inc, inc)))).1 then
          some (pyMaxByFst (incrementPriorityGet i, i)
            (is.map (fun inc => (incrementPriorityGet inc, inc)))).2
        else none := rfl
    rw [hd]
    by_cases hpos : 0 < (pyMaxByFst (incrementPriorityGet i, i)
        (is.map (fun inc => (incrementPriorityGet inc, inc)))).1
    · rw [if_pos hpos]
      constructor
      · intro h; exact absurd h (by simp)
      · intro h
        have h0 : (pyMaxByFst (incrementPriorityGet i, i)
            (is.map (fun inc => (incrementPriorityGet inc, inc)))).1 = 0 := by
          rw [heq]; exact h inc hmem
        omega
    · rw [if_neg hpos]
      constructor
      · intro _ s hs
        have := hdom s hs
        omega
      · intro _; rfl

/-- When determine_highest_increment reports some increment, that
increment occurs in the list, has positive priority, and dominates all. -/
lemma dhi_some_spec (l : List Str) (s : Str) :
    determine_highest_increment l = some s →
      s ∈ l ∧ 0 < incrementPriorityGet s ∧
        ∀ t ∈ l, incrementPriorityGet t ≤ incrementPriorityGet s := by
  cases l with
  | nil => intro h; exact absurd h (by simp [determine_highest_increment])
  | cons i is =>
    intro h
    obtain ⟨⟨inc, hmem, heq⟩, hdom⟩ := dhi_max_spec i is
    have hd : determine_highest_increment (i :: is) =
        if 0 < (pyMaxByFst (incrementPriorityGet i, i)
            (is.map (fun inc => (incrementPriorityGet inc, inc)))).1 then
          some (pyMaxByFst (incrementPriorityGet i, i)
            (is.map (fun inc => (incrementPriorityGet inc, inc)))).2
        else none := rfl
    rw [hd, heq] at h
    by_cases hpos : 0 < incrementPriorityGet inc
    · rw [if_pos hpos] at h
      have hs : s = inc := (Option.some_inj.mp h).symm
      subst hs
      refine ⟨hmem, hpos, ?_⟩
      intro t ht
      have := hdom t ht
      rw [heq] at this
      exact this
    · rw [if_neg hpos] at h
      exact absurd h (by simp)

/-- C3: the reduction of a batch of collected increments is invariant
under reordering, returns none exactly when the list is empty or only
priority-0 entries occur, and otherwise returns an element of the list of
maximal priority under NONE(0) < PATCH(1) < MINOR(2) < MAJOR(3). -/
theorem c3_highest_priority_reduction (l : List Str) :
    (∀ l₂, l.Perm l₂ →
        determine_highest_increment l = determine_highest_increment l₂)
      ∧ (determine_highest_increment l = none ↔
          ∀ s ∈ l, incrementPriorityGet s = 0)
      ∧ (∀ s, determine_highest_increment l = some s →
          s ∈ l ∧ 0 < incrementPriorityGet s ∧
            ∀ t ∈ l, incrementPriorityGet t ≤ incrementPriorityGet s) := by
  refine ⟨?_, dhi_none_iff l, fun s => dhi_some_spec l s⟩
  intro l₂ hperm
  cases h1 : determine_highest_increment l with
  | none =>
    have hall := (dhi_none_iff l).mp h1
    have : ∀ s ∈ l₂, incrementPriorityGet s = 0 := fun s hs =>
      hall s (hperm.symm.subset hs)
    exact ((dhi_none_iff l₂).mpr this).symm
  | some s =>
    obtain ⟨hmem, hpos, hdom⟩ := dhi_some_spec l s h1
    cases h2 : determine_highest_increment l₂ with
    | none =>
      have hall := (dhi_none_iff l₂).mp h2
      have : incrementPriorityGet s = 0 := hall s (hperm.subset hmem)
      omega
    | some s₂ =>
      obtain ⟨hmem₂, hpos₂, hdom₂⟩ := dhi_some_spec l₂ s₂ h2
      have hle : incrementPriorityGet s ≤ incrementPriorityGet s₂ :=
        hdom₂ s (hperm.subset hmem)
      have hge : incrementPriorityGet s₂ ≤ incrementPriorityGet s :=
        hdom s₂ (hperm.symm.subset hmem₂)
      have heqp : incrementPriorityGet s = incrementPriorityGet s₂ :=
        le_antisymm hle hge
      have hss : s = s₂ := by
        rcases incrementPriorityGet_cases s with ⟨hs, hps⟩ | ⟨hs, hps⟩ | ⟨hs, hps⟩ | hps <;>
          rcases incrementPriorityGet_cases s₂ with ⟨ht, hpt⟩ | ⟨ht, hpt⟩ | ⟨ht, hpt⟩ | hpt <;>
          first
          | omega
          | (rw [hs, ht])
      rw [hss]

/-- C3 witness: reordering a concrete batch does not change the result. -/
theorem c3_highest_priority_reduction_witness :
    (["PATCH".toList, "MAJOR".toList, "MINOR".toList].Perm
        ["MAJOR".toList, "MINOR".toList, "PATCH".toList])
      ∧ determine_highest_increment
          ["PATCH".toList, "MAJOR".toList, "MINOR".toList] =
        determine_highest_increment
          ["MAJOR".toList, "MINOR".toList, "PATCH".toList] :=
  ⟨by decide,
   (c3_highest_priority_reduction
      ["PATCH".toList, "MAJOR".toList, "MINOR".toList]).1
     ["MAJOR".toList, "MINOR".toList, "PATCH".toList] (by decide)⟩

/-- The issue-id error never collides with the empty-message error. -/
lemma issueIdErr_ne_empty (i : Str) : issueIdErr i ≠ emptyMsgErr := by
  have h1 : issueIdErr i =
      'I' :: ("nvalid issue ID format: ".toList ++ SQ :: i ++ [SQ]) := rfl
  have h2 : emptyMsgErr = 'E' :: "mpty commit message".toList := rfl
  rw [h1, h2]
  intro h
  injection h with h3 _
  exact absurd h3 (by decide)

/-- The verb error never collides with the empty-message error. -/
lemma verbErr_ne_empty (v : Str) : verbErr v ≠ emptyMsgErr := by
  have h1 : verbErr v =
      'I' :: ("nvalid verb: ".toList ++ SQ :: v ++ [SQ] ++
        " is not in the approved list".toList) := rfl
  have h2 : emptyMsgErr = 'E' :: "mpty commit message".toList := rfl
  rw [h1, h2]
  intro h
  injection h with h3 _
  exact absurd h3 (by decide)

/-- C7: validate_commit_message rejects exactly the empty or
whitespace-only inputs with the empty-message error; otherwise a first
line with fewer than three whitespace-delimited fields gets the format
error; otherwise issue id, verb and description are checked in that order
and the first failing check names the returned error, with (true, none)
exactly when all three pass. -/
theorem c7_validate_order (s : Str) :
    (validate_commit_message s = (false, some emptyMsgErr) ↔ pyStrip s = [])
      ∧ (pyStrip s ≠ [] →
          ((pySplitWs2 (pyStrip (firstLineOf (pyStrip s)))).length < 3 →
              validate_commit_message s = (false, some formatErr))
            ∧ ∀ i v d,
                pySplitWs2 (pyStrip (firstLineOf (pyStrip s))) = [i, v, d] →
                (validate_issue_id i = false →
                    validate_commit_message s = (false, some (issueIdErr i)))
                  ∧ (validate_issue_id i = true → validate_verb v = false →
                      validate_commit_message s = (false, some (verbErr v)))
                  ∧ (validate_issue_id i = true → validate_verb v = true →
                      validate_description d = false →
                      validate_commit_message s = (false, some descErr))
                  ∧ (validate_issue_id i = true → validate_verb v = true →
                      validate_description d = true →
                      validate_commit_message s = (true, none))) := by
  by_cases hemp : pyStrip s = []
  · have hval : validate_commit_message s = (false, some emptyMsgErr) := by
      simp [validate_commit_message, hemp]
    refine ⟨⟨fun _ => hemp, fun _ => hval⟩, fun h => absurd hemp h⟩
  · have hie : (pyStrip s).isEmpty = false := by
      cases h : pyStrip s with
      | nil => exact absurd h hemp
      | cons x xs => simp
    rcases hP : pySplitWs2 (pyStrip (firstLineOf (pyStrip s))) with
      _ | ⟨a, _ | ⟨b, _ | ⟨c, rest⟩⟩⟩
    · have hval : validate_commit_message s = (false, some formatErr) := by
        simp [validate_commit_message, hie, hP]
      refine ⟨⟨fun h => ?_, fun h => absurd h hemp⟩,
        fun _ => ⟨fun _ => hval, fun i v d hivd => ?_⟩⟩
      · rw [hval] at h
        have : formatErr = emptyMsgErr := by injection h with _ h2; injection h2
        exact absurd this (by decide)
      · simp at hivd
    · have hval : validate_commit_message s = (false, some formatErr) := by
        simp [validate_commit_message, hie, hP]
      refine ⟨⟨fun h => ?_, fun h => absurd h hemp⟩,
        fun _ => ⟨fun _ => hval, fun i v d hivd => ?_⟩⟩
      · rw [hval] at h
        have : formatErr = emptyMsgErr := by injection h with _ h2; injection h2
        exact absurd this (by decide)
      · simp at hivd
    · have hval : validate_commit_message s = (false, some formatErr) := by
        simp [validate_commit_message, hie, hP]
      refine ⟨⟨fun h => ?_, fun h => absurd h hemp⟩,
        fun _ => ⟨fun _ => hval, fun i v d hivd => ?_⟩⟩
      · rw [hval] at h
        have : formatErr = emptyMsgErr := by injection h with _ h2; injection h2
        exact absurd this (by decide)
      · simp at hivd
    · have hval : validate_commit_message s =
          (if !validate_issue_id a then (false, some (issueIdErr a))
           else if !validate_verb b then (false, some (verbErr b))
           else if !validate_description c then (false, some descErr)
           else (true, none)) := by
        simp only [validate_commit_message, hie, Bool.false_eq_true, if_false, hP]
      refine ⟨⟨fun h => ?_, fun h => absurd h hemp⟩,
        fun _ => ⟨fun hlen => by simp at hlen; omega, fun i v d hivd => ?_⟩⟩
      · rw [hval] at h
        by_cases h1 : validate_issue_id a
        · rw [if_neg (by simp [h1])] at h
          by_cases h2 : validate_verb b
          · rw [if_neg (by simp [h2])] at h
            by_cases h3 : validate_description c
            · rw [if_neg (by simp [h3])] at h
              injection h with h4 _
              exact absurd h4 (by decide)
            · rw [if_pos (by simp [h3])] at h
              have : descErr = emptyMsgErr := by injection h with _ h4; injection h4
              exact absurd this (by decide)
          · rw [if_pos (by simp [h2])] at h
            have : verbErr b = emptyMsgErr := by injection h with _ h4; injection h4
            exact absurd this (verbErr_ne_empty b)
        · rw [if_pos (by simp [h1])] at h
          have : issueIdErr a = emptyMsgErr := by injection h with _ h4; injection h4
          exact absurd this (issueIdErr_ne_empty a)
      · injection hivd with e1 hivd
        injection hivd with e2 hivd
        injection hivd with e3 _
        subst e1; subst e2; subst e3
        refine ⟨fun h1 => ?_, fun h1 h2 => ?_, fun h1 h2 h3 => ?_,
          fun h1 h2 h3 => ?_⟩
        · rw [hval, if_pos (by simp [h1])]
        · rw [hval, if_neg (by simp [h1]), if_pos (by simp [h2])]
        · rw [hval, if_neg (by simp [h1]), if_neg (by simp [h2]),
            if_pos (by simp [h3])]
        · rw [hval, if_neg (by simp [h1]), if_neg (by simp [h2]),
            if_neg (by simp [h3])]

/-- C7 witness at the spec's own example "ENG-123 Fix": non-empty input
whose first line has only two fields draws the format error. -/
theorem c7_validate_order_witness :
    (pyStrip "ENG-123 Fix".toList ≠ [])
      ∧ ((pySplitWs2 (pyStrip (firstLineOf (pyStrip "ENG-123 Fix".toList)))).length < 3)
      ∧ validate_commit_message "ENG-123 Fix".toList = (false, some formatErr) :=
  ⟨by decide, by decide,
   ((c7_validate_order "ENG-123 Fix".toList).2 (by decide)).1 (by decide)⟩

/-- Python dict lookup distributes over dict merge: the later (custom)
bindings win. -/
lemma pyDictGet_append (a b : List (Str × Str)) (k : Str) :
    pyDictGet (a ++ b) k =
      match pyDictGet b k with
      | some v => some v
      | none => pyDictGet a k := by
  unfold pyDictGet
  rw [List.reverse_append, List.find?_append]
  cases h : b.reverse.find? (fun p => p.1 == k) <;>
    simp [h, Option.orElse]

/-- C10: configuration loading fails (ConfigurationError) exactly when
some custom verb entry has a key that is not a non-empty string or a
level outside the four known names, or a truthy custom issue pattern does
not compile; on success the effective verb map is the builtin table
merged with the custom entries, custom entries winning on collision. -/
theorem c10_config_load (compiles : Str → Bool) (s : CzSettings) :
    (load_custom_config compiles s = none ↔
        (∃ kv ∈ s.custom_verbs,
            goodCfgKey kv.1 = false ∨ goodCfgLevel kv.2 = false)
          ∨ ∃ p, s.issue_pattern = some p ∧ p ≠ [] ∧ compiles p = false)
      ∧ (∀ st, load_custom_config compiles s = some st → ∀ k,
          pyDictGet (verb_map st) k =
            match pyDictGet st.custom_verbs k with
            | some v => some v
            | none => pyDictGet VERB_MAP k) := by
  have hverbs : (s.custom_verbs.isEmpty || validate_custom_verbs s.custom_verbs) = false ↔
      ∃ kv ∈ s.custom_verbs,
        goodCfgKey kv.1 = false ∨ goodCfgLevel kv.2 = false := by
    cases hcv : s.custom_verbs with
    | nil => simp [validate_custom_verbs]
    | cons kv rest =>
      simp only [List.isEmpty_cons, Bool.false_or, validate_custom_verbs,
        List.all_eq_false, Bool.and_eq_true_iff]
      constructor
      · rintro ⟨x, hx, hxf⟩
        refine ⟨x, hx, ?_⟩
        by_cases h1 : goodCfgKey x.1 = true
        · by_cases h2 : goodCfgLevel x.2 = true
          · exact absurd ⟨h1, h2⟩ hxf
          · exact Or.inr (Bool.eq_false_iff.mpr h2)
        · exact Or.inl (Bool.eq_false_iff.mpr h1)
      · rintro ⟨x, hx, hxbad⟩
        refine ⟨x, hx, ?_⟩
        rintro ⟨h1, h2⟩
        rcases hxbad with h | h
        · rw [h1] at h; cases h
        · rw [h2] at h; cases h
  have hpat : (match s.issue_pattern with
      | some p => p.isEmpty || compiles p
      | none => true) = false ↔
      ∃ p, s.issue_pattern = some p ∧ p ≠ [] ∧ compiles p = false := by
    cases hip : s.issue_pattern with
    | none => simp
    | some p =>
      simp only [Option.some_inj]
      constructor
      · intro h
        rcases Bool.or_eq_false_iff.mp h with ⟨h1, h2⟩
        exact ⟨p, rfl, by simpa using h1, h2⟩
      · rintro ⟨q, hq, hq1, hq2⟩
        subst hq
        apply Bool.or_eq_false_iff.mpr
        exact ⟨by simpa using hq1, hq2⟩
  have hload : load_custom_config compiles s =
      if ((s.custom_verbs.isEmpty || validate_custom_verbs s.custom_verbs) &&
          (match s.issue_pattern with
            | some p => p.isEmpty || compiles p
            | none => true)) = true then
        some
          ⟨ strPairs s.custom_verbs
          , match s.issue_pattern with
            | some p => if p.isEmpty then ISSUE_ID_PATTERN_TEXT else p
            | none => ISSUE_ID_PATTERN_TEXT ⟩
      else none := rfl
  constructor
  · rw [hload]
    by_cases hAB : ((s.custom_verbs.isEmpty || validate_custom_verbs s.custom_verbs) &&
        (match s.issue_pattern with
          | some p => p.isEmpty || compiles p
          | none => true)) = true
    · rw [if_pos hAB]
      constructor
      · intro h; exact absurd h (by simp)
      · intro h
        rcases Bool.and_eq_true_iff.mp hAB with ⟨hA, hB⟩
        rcases h with h | h
        · rw [hverbs.mpr h] at hA; cases hA
        · rw [hpat.mpr h] at hB; cases hB
    · rw [if_neg hAB]
      rcases Bool.and_eq_false_iff.mp (Bool.eq_false_iff.mpr hAB) with h1 | h1
      · exact ⟨fun _ => Or.inl (hverbs.mp h1), fun _ => rfl⟩
      · exact ⟨fun _ => Or.inr (hpat.mp h1), fun _ => rfl⟩
  · intro st _ k
    unfold verb_map
    exact pyDictGet_append VERB_MAP st.custom_verbs k

/-- C10 witness: loading a single well-formed custom verb succeeds and the
merged map resolves it. -/
theorem c10_config_load_witness :
    (load_custom_config (fun _ => true)
        ⟨[(PyVal.str "Shipped".toList, PyVal.str "MINOR".toList)], none⟩ =
      some ⟨[("Shipped".toList, "MINOR".toList)], ISSUE_ID_PATTERN_TEXT⟩)
      ∧ pyDictGet
          (verb_map ⟨[("Shipped".toList, "MINOR".toList)], ISSUE_ID_PATTERN_TEXT⟩)
          "Shipped".toList =
        match pyDictGet [("Shipped".toList, "MINOR".toList)] "Shipped".toList with
        | some v => some v
        | none => pyDictGet VERB_MAP "Shipped".toList :=
  ⟨by decide,
   (c10_config_load (fun _ => true)
      ⟨[(PyVal.str "Shipped".toList, PyVal.str "MINOR".toList)], none⟩).2
     ⟨[("Shipped".toList, "MINOR".toList)], ISSUE_ID_PATTERN_TEXT⟩
     (by decide) "Shipped".toList⟩

/-- `k` is an initial segment of `s`. -/
def startsWith (k s : Str) : Prop := ∃ t, k ++ t = s

/-- Initial segments compose. -/
lemma startsWith_trans {a b c : Str} (h1 : startsWith a b) (h2 : startsWith b c) :
    startsWith a c := by
  obtain ⟨t1, ht1⟩ := h1
  obtain ⟨t2, ht2⟩ := h2
  exact ⟨t1 ++ t2, by rw [← List.append_assoc, ht1, ht2]⟩

/-- `takeWhile` produces an initial segment. -/
lemma takeWhile_startsWith (p : Char → Bool) (s : Str) :
    startsWith (s.takeWhile p) s :=
  ⟨s.dropWhile p, List.takeWhile_append_dropWhile p s⟩

/-- An initial segment of equal length is the whole list. -/
lemma startsWith_eq_of_length {a b : Str} (h : startsWith a b)
    (hl : a.length = b.length) : a = b := by
  obtain ⟨t, ht⟩ := h
  have : t = [] := by
    have := congrArg List.length ht
    simp at this
    exact List.eq_nil_of_length_eq_zero (by omega)
  rw [this] at ht
  simpa using ht

/-- Everything `takeWhile` keeps satisfies the predicate. -/
lemma mem_takeWhile_sat (p : Char → Bool) (l : Str) (c : Char)
    (h : c ∈ l.takeWhile p) : p c = true := by
  induction l with
  | nil => cases h
  | cons d t ih =>
    rw [List.takeWhile_cons] at h
    by_cases hd : p d
    · rw [if_pos hd] at h
      rcases List.mem_cons.mp h with h1 | h1
      · rw [h1]; exact hd
      · exact ih h1
    · rw [if_neg hd] at h
      cases h

/-- rstrip splits the string into its result and an all-whitespace tail. -/
lemma pyRStrip_decomp (s : Str) :
    pyRStrip s ++ (s.reverse.takeWhile pyIsSpace).reverse = s
      ∧ ∀ c ∈ (s.reverse.takeWhile pyIsSpace).reverse, pyIsSpace c = true := by
  constructor
  · unfold pyRStrip
    rw [← List.reverse_append, List.takeWhile_append_dropWhile, List.reverse_reverse]
  · intro c hc
    rw [List.mem_reverse] at hc
    exact mem_takeWhile_sat pyIsSpace s.reverse c hc

/-- The rstrip of a string is one of its initial segments. -/
lemma pyRStrip_startsWith (s : Str) : startsWith (pyRStrip s) s :=
  ⟨(s.reverse.takeWhile pyIsSpace).reverse, (pyRStrip_decomp s).1⟩

/-- Bool prefix check agrees with the initial-segment relation. -/
lemma isPrefixOf_iff {k s : Str} : k.isPrefixOf s = true ↔ startsWith k s := by
  induction k generalizing s with
  | nil =>
    simp [List.isPrefixOf, startsWith]
  | cons c ct ih =>
    cases s with
    | nil =>
      simp [List.isPrefixOf, startsWith]
    | cons d ds =>
      rw [List.isPrefixOf_cons₂]
      constructor
      · intro h
        rcases Bool.and_eq_true_iff.mp h with ⟨h1, h2⟩
        have hcd : c = d := by simpa using h1
        obtain ⟨t, ht⟩ := ih.mp h2
        exact ⟨t, by rw [List.cons_append, ht, hcd]⟩
      · rintro ⟨t, ht⟩
        rw [List.cons_append] at ht
        injection ht with h1 h2
        apply Bool.and_eq_true_iff.mpr
        exact ⟨by simp [h1], ih.mpr ⟨t, h2⟩⟩

/-- An initial segment made of predicate-satisfying characters is an
initial segment of the `takeWhile`. -/
lemma startsWith_takeWhile_of_all (p : Char → Bool) (k : Str) :
    ∀ s : Str, (∀ c ∈ k, p c = true) → startsWith k s →
      startsWith k (s.takeWhile p) := by
  induction k with
  | nil => intro s _ _; exact ⟨s.takeWhile p, rfl⟩
  | cons c ct ih =>
    intro s hall h
    obtain ⟨t, ht⟩ := h
    rw [List.cons_append] at ht
    have hpc : p c = true := hall c (List.mem_cons_self c ct)
    have hs : s.takeWhile p = c :: (ct ++ t).takeWhile p := by
      rw [← ht, List.takeWhile_cons, if_pos hpc]
    obtain ⟨u, hu⟩ := ih (ct ++ t)
      (fun x hx => hall x (List.mem_cons_of_mem c hx)) ⟨t, rfl⟩
    exact ⟨u, by rw [hs, List.cons_append, hu]⟩

/-- A list a dropWhile leaves intact starts with a failing character (or
is empty). -/
lemma dropWhile_eq_self_head (p : Char → Bool) (c : Char) (t : Str)
    (h : (c :: t).dropWhile p = c :: t) : p c = false := by
  by_cases hc : p c
  · rw [List.dropWhile_cons, if_pos hc] at h
    have := (List.dropWhile_sublist p (l := t)).length_le
    have := congrArg List.length h
    simp at this
    omega
  · exact Bool.eq_false_iff.mpr hc

/-- lstrip fixes the rstrip of anything it already fixes. -/
lemma pyLStrip_pyRStrip_of_fixed {s : Str} (h : pyLStrip s = s) :
    pyLStrip (pyRStrip s) = pyRStrip s := by
  cases hr : pyRStrip s with
  | nil => simp [pyLStrip]
  | cons c t =>
    obtain ⟨u, hu⟩ := pyRStrip_startsWith s
    rw [hr] at hu
    rw [List.cons_append] at hu
    rw [← hu] at h
    have hc : pyIsSpace c = false := by
      unfold pyLStrip at h
      exact dropWhile_eq_self_head pyIsSpace c (t ++ u) h
    simp [pyLStrip, List.dropWhile_cons, hc]

/-- For a predicate that fails on whitespace, takeWhile ignores the
whitespace tail removed by rstrip. -/
lemma takeWhile_pyRStrip (p : Char → Bool) (s : Str)
    (hp : ∀ c, pyIsSpace c = true → p c = false) :
    (pyRStrip s).takeWhile p = s.takeWhile p := by
  obtain ⟨hdecomp, hws⟩ := pyRStrip_decomp s
  conv_rhs => rw [← hdecomp]
  rw [List.takeWhile_append]
  split
  · rename_i hlen
    have heq : (pyRStrip s).takeWhile p = pyRStrip s :=
      startsWith_eq_of_length (takeWhile_startsWith p (pyRStrip s)) hlen
    rw [heq]
    cases htws : (s.reverse.takeWhile pyIsSpace).reverse with
    | nil => simp
    | cons c t =>
      have : p c = false := hp c (hws c (by rw [htws]; exact List.mem_cons_self c t))
      simp [List.takeWhile_cons, this]
  · rfl

/-- Dropping as many elements as takeWhile keeps is dropWhile. -/
lemma drop_takeWhile_length (p : Char → Bool) (l : Str) :
    l.drop (l.takeWhile p).length = l.dropWhile p := by
  induction l with
  | nil => rfl
  | cons c t ih =>
    rw [List.takeWhile_cons, List.dropWhile_cons]
    by_cases hc : p c
    · rw [if_pos hc, if_pos hc]
      simpa using ih
    · rw [if_neg hc, if_neg hc]
      rfl

/-- dropWhile is idempotent. -/
lemma dropWhile_idem (p : Char → Bool) (l : Str) :
    (l.dropWhile p).dropWhile p = l.dropWhile p := by
  induction l with
  | nil => rfl
  | cons c t ih =>
    rw [List.dropWhile_cons]
    by_cases hc : p c
    · rw [if_pos hc]; exact ih
    · rw [if_neg hc, List.dropWhile_cons, if_neg hc]

/-- The second capture group of COMMIT_PARSER_PATTERN never starts with
whitespace: it begins right after the maximal whitespace run. -/
lemma commitPatternMatch_rest_lstrip (line i g : Str)
    (h : commitPatternMatch line = some (i, g)) : pyLStrip g = g := by
  unfold commitPatternMatch at h
  simp only [] at h
  split at h
  · exact absurd h (by simp)
  · split at h
    · rename_i afterDash heq
      split at h
      · exact absurd h (by simp)
      · split at h
        · exact absurd h (by simp)
        · have hinj := Option.some_inj.mp h
          rw [Prod.mk.injEq] at hinj
          obtain ⟨-, hg⟩ := hinj
          subst hg
          rw [drop_takeWhile_length]
          exact dropWhile_idem pyIsSpace _
    · exact absurd h (by simp)

/-- The head of a split(None, 1) result is the first whitespace-delimited
token of the left-stripped input. -/
lemma pySplitWs1_head_eq (x w : Str)
    (h : (pySplitWs1 x).head? = some w) :
    w = (pyLStrip x).takeWhile (fun c => !pyIsSpace c) := by
  unfold pySplitWs1 at h
  cases hx : pyLStrip x with
  | nil =>
    rw [hx] at h
    simp at h
  | cons c t =>
    rw [hx] at h
    simp only at h
    split at h <;> (simp at h; rw [h])

/-- No verb key contains whitespace. -/
lemma verb_keys_no_ws : ∀ k ∈ VERB_KEYS, ∀ c ∈ k, (!pyIsSpace c) = true := by
  decide

/-- No verb key is a proper initial segment of another key. -/
lemma verb_keys_pf : ∀ k1 ∈ VERB_KEYS, ∀ k2 ∈ VERB_KEYS,
    k1.isPrefixOf k2 = true → k1 = k2 := by
  decide

/-- The first verb key that is a literal prefix of `g` (the alternation of
the verb regex) is exactly the first whitespace-delimited token of `g`,
whenever that token is a key: keys contain no whitespace and are mutually
prefix-free. -/
lemma verb_find_eq (g w : Str)
    (hw : w = g.takeWhile (fun c => !pyIsSpace c))
    (hk : isVerbKey w = true) :
    VERB_KEYS.find? (fun k => k.isPrefixOf g) = some w := by
  have hwmem : w ∈ VERB_KEYS := by
    have hk2 : VERB_KEYS.elem w = true := hk
    exact List.elem_iff.mp hk2
  have hpred : w.isPrefixOf g = true := by
    apply isPrefixOf_iff.mpr
    rw [hw]
    exact takeWhile_startsWith _ g
  cases hfind : VERB_KEYS.find? (fun k => k.isPrefixOf g) with
  | none =>
    have := List.find?_eq_none.mp hfind w hwmem
    exact absurd hpred (by simpa using this)
  | some k =>
    have hkp : k.isPrefixOf g = true :=
      @List.find?_some Str (fun k => k.isPrefixOf g) k VERB_KEYS hfind
    have hkmem : k ∈ VERB_KEYS := List.mem_of_find?_eq_some hfind
    have h1 : startsWith k (g.takeWhile (fun c => !pyIsSpace c)) :=
      startsWith_takeWhile_of_all _ k g (verb_keys_no_ws k hkmem)
        (isPrefixOf_iff.mp hkp)
    rw [← hw] at h1
    have hkw : k = w := verb_keys_pf k hkmem w hwmem (isPrefixOf_iff.mpr h1)
    rw [hkw]

/-- C6 counterexample: the regex-based path and the tokenize-and-lookup
path disagree.  extract_verb_from_first_line matches a verb as a mere
prefix of the first token ("ChangedFoo" yields MAJOR while parse_commit
leaves the verb undefined), and it reads the raw, unstripped first line
(a leading space makes it fail where parse_commit still finds "Fixed"). -/
theorem c6_counterexample :
    (get_increment_from_message "ENG-1 ChangedFoo bar".toList =
          some "MAJOR".toList
        ∧ (parse_commit "ENG-1 ChangedFoo bar".toList).verb = none
        ∧ extract_manual_bump "ENG-1 ChangedFoo bar".toList = none)
      ∧ (get_increment_from_message " ENG-1 Fixed bug".toList = none
          ∧ (parse_commit " ENG-1 Fixed bug".toList).verb = some "Fixed".toList
          ∧ extract_manual_bump " ENG-1 Fixed bug".toList = none
          ∧ verbMapGet "Fixed".toList = some "PATCH".toList) := by
  decide

/-- C6 amended: on every message with no manual bump whose raw first line
coincides with the stripped first line parse_commit works on, and on
which parse_commit produces a defined verb, get_increment_from_message
returns that verb's VERB_MAP value.  (The converse fails: when
parse_commit leaves the verb undefined the regex path may still match a
key as a prefix of the first token, and when the first line needs
stripping the regex path fails; see the counterexample.) -/
theorem c6_parse_verb_agreement (m v : Str)
    (hnb : extract_manual_bump m = none)
    (hline : firstLineOf m = pyStrip (firstLineOf (pyStrip m)))
    (hv : (parse_commit m).verb = some v) :
    get_increment_from_message m = verbMapGet v := by
  cases hcm : commitPatternMatch (pyStrip (firstLineOf (pyStrip m))) with
  | none => simp [parse_commit, hcm] at hv
  | some pr =>
    obtain ⟨i, g⟩ := pr
    cases hh : (pySplitWs1 (pyStrip g)).head? with
    | none => simp [parse_commit, hcm, hh] at hv
    | some w =>
      by_cases hk : isVerbKey w
      · have hvw : w = v := by
          simpa [parse_commit, hcm, hh, hk] using hv
        subst hvw
        have hw := pySplitWs1_head_eq (pyStrip g) w hh
        have hlg : pyLStrip g = g := commitPatternMatch_rest_lstrip _ _ _ hcm
        have hsg : pyStrip g = pyRStrip g := by unfold pyStrip; rw [hlg]
        have hlsg : pyLStrip (pyStrip g) = pyStrip g := by
          rw [hsg]; exact pyLStrip_pyRStrip_of_fixed hlg
        have hw2 : w = g.takeWhile (fun c => !pyIsSpace c) := by
          rw [hw, hlsg, hsg]
          exact takeWhile_pyRStrip _ g (fun c hc => by simp [hc])
        simp only [get_increment_from_message, hnb]
        rw [hline]
        simp only [extract_verb_from_first_line, hcm]
        rw [verb_find_eq g w hw2 hk]
      · simp [parse_commit, hcm, hh, hk] at hv

/-- C6 amended, witness at a plain well-formed commit line. -/
theorem c6_parse_verb_agreement_witness :
    (extract_manual_bump "ENG-123 Fixed login bug".toList = none)
      ∧ (firstLineOf "ENG-123 Fixed login bug".toList =
          pyStrip (firstLineOf (pyStrip "ENG-123 Fixed login bug".toList)))
      ∧ ((parse_commit "ENG-123 Fixed login bug".toList).verb =
          some "Fixed".toList)
      ∧ get_increment_from_message "ENG-123 Fixed login bug".toList =
          verbMapGet "Fixed".toList :=
  ⟨by decide, by decide, by decide,
   c6_parse_verb_agreement "ENG-123 Fixed login bug".toList "Fixed".toList
     (by decide) (by decide) (by decide)⟩

/-- dropWhile over an append: either the left part is consumed entirely
or the right part is untouched. -/
lemma dropWhile_append_own (p : Char → Bool) (a b : Str) :
    (a ++ b).dropWhile p =
      if (a.dropWhile p).isEmpty then b.dropWhile p else a.dropWhile p ++ b := by
  induction a with
  | nil => simp
  | cons c t ih =>
    rw [List.cons_append, List.dropWhile_cons, List.dropWhile_cons]
    by_cases hc : p c
    · rw [if_pos hc, if_pos hc, ih]
    · rw [if_neg hc, if_neg hc]
      simp

/-- rstrip over an append: an all-whitespace right part defers to the
left part, otherwise the left part is untouched. -/
lemma pyRStrip_append (x y : Str) :
    pyRStrip (x ++ y) =
      if pyRStrip y = [] then pyRStrip x else x ++ pyRStrip y := by
  unfold pyRStrip
  rw [List.reverse_append, dropWhile_append_own]
  by_cases h : (y.reverse.dropWhile pyIsSpace).isEmpty
  · have h2 : (y.reverse.dropWhile pyIsSpace).reverse = [] := by
      rw [List.isEmpty_iff] at h
      rw [h, List.reverse_nil]
    rw [if_pos h, if_pos h2]
  · have h2 : ¬ (y.reverse.dropWhile pyIsSpace).reverse = [] := by
      intro hc
      rw [List.isEmpty_iff] at h
      exact h (by simpa using congrArg List.reverse hc)
    rw [if_neg h, if_neg h2, List.reverse_append, List.reverse_reverse]

/-- rstrip fixes a list with no whitespace at all. -/
lemma pyRStrip_all_nonws (l : Str) (h : ∀ c ∈ l, pyIsSpace c = false) :
    pyRStrip l = l := by
  unfold pyRStrip
  cases hr : l.reverse with
  | nil => simpa using congrArg List.reverse hr
  | cons c t =>
    have hc : pyIsSpace c = false := by
      apply h
      rw [← List.mem_reverse, hr]
      exact List.mem_cons_self c t
    rw [List.dropWhile_cons, if_neg (by simp [hc]), ← hr, List.reverse_reverse]

/-- lstrip fixes a list whose head is not whitespace. -/
lemma pyLStrip_cons_nonws (c : Char) (t : Str) (h : pyIsSpace c = false) :
    pyLStrip (c :: t) = c :: t := by
  simp [pyLStrip, List.dropWhile_cons, h]

/-- rstrip is idempotent. -/
lemma pyRStrip_idem (s : Str) : pyRStrip (pyRStrip s) = pyRStrip s := by
  unfold pyRStrip
  rw [List.reverse_reverse, dropWhile_idem]

/-- A strip result needs no further lstrip. -/
lemma pyStrip_fix_l (s : Str) : pyLStrip (pyStrip s) = pyStrip s := by
  unfold pyStrip
  exact pyLStrip_pyRStrip_of_fixed (dropWhile_idem pyIsSpace s)

/-- A strip result needs no further rstrip. -/
lemma pyStrip_fix_r (s : Str) : pyRStrip (pyStrip s) = pyStrip s := by
  unfold pyStrip
  exact pyRStrip_idem (pyLStrip s)

/-- strip is idempotent. -/
lemma pyStrip_idem (s : Str) : pyStrip (pyStrip s) = pyStrip s := by
  conv_lhs => rw [pyStrip]
  rw [pyStrip_fix_l]
  exact pyStrip_fix_r s

/-- Characters of the strip come from the original string. -/
lemma mem_pyStrip_imp (s : Str) (c : Char) (h : c ∈ pyStrip s) : c ∈ s := by
  unfold pyStrip pyRStrip pyLStrip at h
  rw [List.mem_reverse] at h
  have h2 := (List.dropWhile_sublist pyIsSpace).subset h
  rw [List.mem_reverse] at h2
  exact (List.dropWhile_sublist pyIsSpace).subset h2

/-- takeWhile keeps a list all of whose characters pass. -/
lemma takeWhile_eq_self_of_all (p : Char → Bool) (l : Str)
    (h : ∀ c ∈ l, p c = true) : l.takeWhile p = l := by
  have h2 := @List.takeWhile_append_of_pos Char p l [] (fun a ha => h a ha)
  simpa using h2

/-- A newline-free string is its own first line. -/
lemma firstLineOf_no_nl (l : Str) (h : '\n' ∉ l) : firstLineOf l = l := by
  apply takeWhile_eq_self_of_all
  intro c hc
  simp only [decide_eq_true_eq]
  intro he
  exact h (he ▸ hc)

/-- The first line stops at the first newline. -/
lemma firstLineOf_append_nl (x y : Str) (h : '\n' ∉ x) :
    firstLineOf (x ++ '\n' :: y) = x := by
  unfold firstLineOf
  rw [List.takeWhile_append_of_pos]
  · rw [List.takeWhile_cons]
    simp
  · intro c hc
    simp only [decide_eq_true_eq]
    intro he
    exact h (he ▸ hc)

/-- A newline-free string has no body part. -/
lemma bodyAfterFirstLine_no_nl (l : Str) (h : '\n' ∉ l) :
    bodyAfterFirstLine l = none := by
  unfold bodyAfterFirstLine
  rw [firstLineOf_no_nl l h, List.drop_length]

/-- The body part is everything after the first newline. -/
lemma bodyAfterFirstLine_append_nl (x y : Str) (h : '\n' ∉ x) :
    bodyAfterFirstLine (x ++ '\n' :: y) = some y := by
  unfold bodyAfterFirstLine
  rw [firstLineOf_append_nl x y h, List.drop_left]

/-- An uppercase letter is not whitespace. -/
lemma isUpper_not_ws (c : Char) (h : isUpperChar c = true) :
    pyIsSpace c = false := by
  rcases Bool.and_eq_true_iff.mp h with ⟨h1, -⟩
  have hA : 'A' ≤ c := of_decide_eq_true h1
  have n1 : c ≠ ' ' := fun he => absurd (he ▸ hA) (by decide)
  have n2 : c ≠ '\t' := fun he => absurd (he ▸ hA) (by decide)
  have n3 : c ≠ '\n' := fun he => absurd (he ▸ hA) (by decide)
  have n4 : c ≠ '\r' := fun he => absurd (he ▸ hA) (by decide)
  have n5 : c ≠ '\x0b' := fun he => absurd (he ▸ hA) (by decide)
  have n6 : c ≠ '\x0c' := fun he => absurd (he ▸ hA) (by decide)
  simp [pyIsSpace, n1, n2, n3, n4, n5, n6]

/-- An uppercase letter is at most the letter Z. -/
lemma isUpper_le_Z (c : Char) (h : isUpperChar c = true) : c ≤ 'Z' := by
  rcases Bool.and_eq_true_iff.mp h with ⟨-, h2⟩
  exact of_decide_eq_true h2

/-- A digit is at most the letter Z. -/
lemma isDigit_le_Z (c : Char) (h : isDigitChar c = true) : c ≤ 'Z' := by
  rcases Bool.and_eq_true_iff.mp h with ⟨-, h2⟩
  exact le_trans (of_decide_eq_true h2) (by decide)

/-- A digit is not a newline. -/
lemma isDigit_ne_nl (c : Char) (h : isDigitChar c = true) : c ≠ '\n' := by
  rcases Bool.and_eq_true_iff.mp h with ⟨h1, -⟩
  intro he
  subst he
  exact absurd (of_decide_eq_true h1) (by decide)

/-- An uppercase letter is not a newline. -/
lemma isUpper_ne_nl (c : Char) (h : isUpperChar c = true) : c ≠ '\n' := by
  rcases Bool.and_eq_true_iff.mp h with ⟨h1, -⟩
  intro he
  subst he
  exact absurd (of_decide_eq_true h1) (by decide)

/-- Characters at most Z are fixed by upper-casing (lowercase letters all
come after Z). -/
lemma pyToUpper_fix_le (c : Char) (h : c ≤ 'Z') : pyToUpper c = c := by
  unfold pyToUpper
  rw [if_neg fun hh => absurd (hh ▸ h) (by decide)]
  rw [if_neg fun hh => absurd (hh ▸ h) (by decide)]
  rw [if_neg fun hh => absurd (hh ▸ h) (by decide)]
  rw [if_neg fun hh => absurd (hh ▸ h) (by decide)]
  rw [if_neg fun hh => absurd (hh ▸ h) (by decide)]
  rw [if_neg fun hh => absurd (hh ▸ h) (by decide)]
  rw [if_neg fun hh => absurd (hh ▸ h) (by decide)]
  rw [if_neg fun hh => absurd (hh ▸ h) (by decide)]
  rw [if_neg fun hh => absurd (hh ▸ h) (by decide)]
  rw [if_neg fun hh => absurd (hh ▸ h) (by decide)]
  rw [if_neg fun hh => absurd (hh ▸ h) (by decide)]
  rw [if_neg fun hh => absurd (hh ▸ h) (by decide)]
  rw [if_neg fun hh => absurd (hh ▸ h) (by decide)]
  rw [if_neg fun hh => absurd (hh ▸ h) (by decide)]
  rw [if_neg fun hh => absurd (hh ▸ h) (by decide)]
  rw [if_neg fun hh => absurd (hh ▸ h) (by decide)]
  rw [if_neg fun hh => absurd (hh ▸ h) (by decide)]
  rw [if_neg fun hh => absurd (hh ▸ h) (by decide)]
  rw [if_neg fun hh => absurd (hh ▸ h) (by decide)]
  rw [if_neg fun hh => absurd (hh ▸ h) (by decide)]
  rw [if_neg fun hh => absurd (hh ▸ h) (by decide)]
  rw [if_neg fun hh => absurd (hh ▸ h) (by decide)]
  rw [if_neg fun hh => absurd (hh ▸ h) (by decide)]
  rw [if_neg fun hh => absurd (hh ▸ h) (by decide)]
  rw [if_neg fun hh => absurd (hh ▸ h) (by decide)]
  rw [if_neg fun hh => absurd (hh ▸ h) (by decide)]

/-- A list of fixed points maps to itself. -/
lemma map_fix (f : Char → Char) (l : Str) (h : ∀ c ∈ l, f c = c) :
    l.map f = l := by
  rw [List.map_congr_left h]
  simp

/-- Every verb key is non-empty. -/
lemma verb_keys_nonempty : ∀ k ∈ VERB_KEYS, k ≠ [] := by decide

/-- Inversion of the full issue-id match: the string splits into two or
more uppercase letters, a dash, and one or more digits. -/
lemma issueIdFullMatch_inv (u : Str) (h : issueIdFullMatch u = true) :
    ∃ L ds, u = L ++ '-' :: ds ∧ 2 ≤ L.length ∧ 1 ≤ ds.length ∧
      (∀ x ∈ L, isUpperChar x = true) ∧ ∀ x ∈ ds, isDigitChar x = true := by
  unfold issueIdFullMatch at h
  simp only [] at h
  split at h
  · rename_i afterDash heq
    rw [drop_takeWhile_length] at heq
    rcases Bool.and_eq_true_iff.mp h with ⟨h12, h3⟩
    rcases Bool.and_eq_true_iff.mp h12 with ⟨h1, h2⟩
    rw [drop_takeWhile_length, List.isEmpty_iff] at h3
    have ha : afterDash = afterDash.takeWhile isDigitChar := by
      conv_lhs => rw [← List.takeWhile_append_dropWhile isDigitChar afterDash]
      rw [h3, List.append_nil]
    refine ⟨u.takeWhile isUpperChar, afterDash.takeWhile isDigitChar, ?_,
      of_decide_eq_true h1, of_decide_eq_true h2,
      fun x hx => mem_takeWhile_sat isUpperChar u x hx,
      fun x hx => mem_takeWhile_sat isDigitChar afterDash x hx⟩
    conv_lhs => rw [← List.takeWhile_append_dropWhile isUpperChar u]
    rw [heq, ← ha]
  · cases h

/-- COMMIT_PARSER_PATTERN on an issue id followed by one space and a rest
that starts with a non-whitespace character: the two capture groups are
the issue id and the rest. -/
lemma commitPatternMatch_concrete (L ds R : Str) (c : Char) (t : Str)
    (hL2 : 2 ≤ L.length) (hLu : ∀ x ∈ L, isUpperChar x = true)
    (hds1 : 1 ≤ ds.length) (hdsd : ∀ x ∈ ds, isDigitChar x = true)
    (hRct : R = c :: t) (hRc : pyIsSpace c = false) :
    commitPatternMatch ((L ++ '-' :: ds) ++ ' ' :: R) =
      some (L ++ '-' :: ds, R) := by
  have hshape : (L ++ '-' :: ds) ++ ' ' :: R = L ++ '-' :: (ds ++ ' ' :: R) := by
    simp
  rw [hshape]
  have hdash : isUpperChar '-' = false := by decide
  have hspd : isDigitChar ' ' = false := by decide
  have h1 : (L ++ '-' :: (ds ++ ' ' :: R)).takeWhile isUpperChar = L := by
    rw [List.takeWhile_append_of_pos hLu, List.takeWhile_cons]
    simp [hdash]
  have h2 : (L ++ '-' :: (ds ++ ' ' :: R)).drop L.length = '-' :: (ds ++ ' ' :: R) := by
    have := List.drop_left L ('-' :: (ds ++ ' ' :: R))
    simpa using this
  have h3 : (ds ++ ' ' :: R).takeWhile isDigitChar = ds := by
    rw [List.takeWhile_append_of_pos hdsd, List.takeWhile_cons]
    simp [hspd]
  have h4 : (ds ++ ' ' :: R).drop ds.length = ' ' :: R := List.drop_left _ _
  have h5 : (' ' :: R).takeWhile pyIsSpace = [' '] := by
    rw [List.takeWhile_cons, if_pos (by decide), hRct, List.takeWhile_cons,
      if_neg (by simp [hRc])]
  have hc1 : ¬ (L.length < 2) := by omega
  have hc2 : ¬ (ds.length = 0) := by omega
  unfold commitPatternMatch
  simp only [h1, h2, h3, h4, h5]
  rw [if_neg hc1, if_neg hc2, if_neg (by simp)]
  simp [h1]

/-- Stripping a rendered header line with a non-empty stripped
description leaves it unchanged. -/
lemma strip_head_line_pos (U V D : Str)
    (hU : ∀ X : Str, pyLStrip (U ++ X) = U ++ X)
    (hDr : pyRStrip D = D) (hD : D ≠ []) :
    pyStrip (U ++ ' ' :: V ++ ' ' :: D) = U ++ ' ' :: V ++ ' ' :: D := by
  unfold pyStrip
  have e0 : (U ++ ' ' :: V) ++ ' ' :: D = U ++ (' ' :: (V ++ ' ' :: D)) := by
    simp
  rw [e0, hU]
  have e1 : U ++ (' ' :: (V ++ ' ' :: D)) = ((U ++ ' ' :: V) ++ [' ']) ++ D := by
    simp
  rw [e1, pyRStrip_append, hDr, if_neg hD]

/-- Stripping a rendered header line with an empty description removes
exactly the trailing space. -/
lemma strip_head_line_nil (U V : Str)
    (hU : ∀ X : Str, pyLStrip (U ++ X) = U ++ X)
    (hVr : pyRStrip V = V) (hVne : V ≠ []) :
    pyStrip (U ++ ' ' :: V ++ [' ']) = U ++ ' ' :: V := by
  unfold pyStrip
  have e0 : (U ++ ' ' :: V) ++ [' '] = U ++ (' ' :: (V ++ [' '])) := by
    simp
  rw [e0, hU]
  have e1 : U ++ (' ' :: (V ++ [' '])) = ((U ++ [' ']) ++ V) ++ [' '] := by
    simp
  rw [e1, pyRStrip_append]
  rw [if_pos (show pyRStrip [' '] = [] by decide)]
  rw [pyRStrip_append, hVr, if_neg hVne]
  simp

/-- split(None, 1) of the stripped verb-and-description rest recovers the
verb token and the description. -/
lemma split1_verb_desc (V D : Str) (v0 : Char) (vt : Str) (hVct : V = v0 :: vt)
    (hVnw : ∀ c ∈ V, pyIsSpace c = false) (hDl : pyLStrip D = D)
    (hDr : pyRStrip D = D) (hD : D ≠ []) :
    pySplitWs1 (pyStrip (V ++ ' ' :: D)) = [V, D] := by
  have hv0 : pyIsSpace v0 = false := hVnw v0 (by rw [hVct]; exact List.mem_cons_self _ _)
  have hlrest : pyLStrip (V ++ ' ' :: D) = V ++ ' ' :: D := by
    rw [hVct, List.cons_append]
    exact pyLStrip_cons_nonws v0 _ hv0
  have hrem : pyStrip (V ++ ' ' :: D) = V ++ ' ' :: D := by
    unfold pyStrip
    rw [hlrest]
    have e1 : V ++ ' ' :: D = (V ++ [' ']) ++ D := by simp
    rw [e1, pyRStrip_append, hDr, if_neg hD]
  have htok : (V ++ ' ' :: D).takeWhile (fun c => !pyIsSpace c) = V := by
    rw [List.takeWhile_append_of_pos (by
      intro c hc
      simp [hVnw c hc])]
    rw [List.takeWhile_cons, if_neg (by decide)]
    simp
  have hdrop : (V ++ ' ' :: D).drop V.length = ' ' :: D := List.drop_left _ _
  have hrest : pyLStrip (' ' :: D) = D := by
    rw [pyLStrip, List.dropWhile_cons, if_pos (by decide)]
    exact hDl
  have hDe : D.isEmpty = false := by
    cases hDc : D with
    | nil => exact absurd hDc hD
    | cons x xs => simp
  rw [hrem]
  rw [hVct, List.cons_append] at htok hdrop ⊢
  have hl2 : pyLStrip (v0 :: (vt ++ ' ' :: D)) = v0 :: (vt ++ ' ' :: D) :=
    pyLStrip_cons_nonws v0 _ hv0
  unfold pySplitWs1
  simp only [hl2, htok, hdrop, hrest, hDe]
  simp

/-- split(None, 1) of the stripped lone verb recovers just the verb. -/
lemma split1_verb_only (V : Str) (v0 : Char) (vt : Str) (hVct : V = v0 :: vt)
    (hVnw : ∀ c ∈ V, pyIsSpace c = false) :
    pySplitWs1 (pyStrip V) = [V] := by
  have hv0 : pyIsSpace v0 = false := hVnw v0 (by rw [hVct]; exact List.mem_cons_self _ _)
  have hVl : pyLStrip V = V := by
    rw [hVct]
    exact pyLStrip_cons_nonws v0 vt hv0
  have hVr : pyRStrip V = V := pyRStrip_all_nonws V hVnw
  have hsV : pyStrip V = V := by unfold pyStrip; rw [hVl, hVr]
  have htok : V.takeWhile (fun c => !pyIsSpace c) = V :=
    takeWhile_eq_self_of_all _ _ (fun c hc => by simp [hVnw c hc])
  have hdrop : V.drop V.length = ([] : Str) := List.drop_length V
  rw [hsV]
  rw [hVct] at htok hdrop ⊢
  have hl2 : pyLStrip (v0 :: vt) = v0 :: vt := pyLStrip_cons_nonws v0 vt hv0
  unfold pySplitWs1
  simp only [hl2, htok, hdrop]
  simp [pyLStrip]

/-- Parsing a rendered message recovers the issue id, the verb, the
stripped description and the stripped body, for any issue id of the valid
shape, any verb key, and any newline-free stripped description. -/
lemma parse_render_core (U V D B L ds : Str) (v0 : Char) (vt : Str)
    (hUeq : U = L ++ '-' :: ds) (hL2 : 2 ≤ L.length) (hds1 : 1 ≤ ds.length)
    (hLu : ∀ x ∈ L, isUpperChar x = true) (hdsd : ∀ x ∈ ds, isDigitChar x = true)
    (hVct : V = v0 :: vt) (hVnw : ∀ c ∈ V, pyIsSpace c = false)
    (hkv : isVerbKey V = true)
    (hDl : pyLStrip D = D) (hDr : pyRStrip D = D) (hDnn : '\n' ∉ D)
    (hBl : pyLStrip B = B) (hBr : pyRStrip B = B) :
    parse_commit (if B.isEmpty then U ++ ' ' :: V ++ ' ' :: D
      else (U ++ ' ' :: V ++ ' ' :: D) ++ '\n' :: '\n' :: B) =
      ⟨some U, some V, D, B,
        extract_manual_bump (if B.isEmpty then U ++ ' ' :: V ++ ' ' :: D
          else (U ++ ' ' :: V ++ ' ' :: D) ++ '\n' :: '\n' :: B)⟩ := by
  have hv0 : pyIsSpace v0 = false :=
    hVnw v0 (by rw [hVct]; exact List.mem_cons_self _ _)
  have hVne : V ≠ [] := by rw [hVct]; simp
  have hVr : pyRStrip V = V := pyRStrip_all_nonws V hVnw
  have hVnn : '\n' ∉ V := fun hc => absurd (hVnw '\n' hc) (by decide)
  have hUnn : '\n' ∉ U := by
    rw [hUeq]; intro hc
    rcases List.mem_append.mp hc with h | h
    · exact isUpper_ne_nl '\n' (hLu '\n' h) rfl
    · rcases List.mem_cons.mp h with h | h
      · exact absurd h (by decide)
      · exact isDigit_ne_nl '\n' (hdsd '\n' h) rfl
  have hUhead : ∀ X : Str, pyLStrip (U ++ X) = U ++ X := by
    intro X
    cases hL : L with
    | nil => rw [hL] at hL2; simp at hL2
    | cons l0 lt =>
      have hl0 : pyIsSpace l0 = false :=
        isUpper_not_ws l0 (hLu l0 (by rw [hL]; exact List.mem_cons_self _ _))
      have e : U ++ X = l0 :: ((lt ++ '-' :: ds) ++ X) := by rw [hUeq, hL]; simp
      rw [e]
      exact pyLStrip_cons_nonws _ _ hl0
  have hUVnn : '\n' ∉ U ++ ' ' :: V := by
    intro hc
    rcases List.mem_append.mp hc with h | h
    · exact hUnn h
    · rcases List.mem_cons.mp h with h | h
      · exact absurd h (by decide)
      · exact hVnn h
  have hHnn : '\n' ∉ (U ++ ' ' :: V) ++ ' ' :: D := by
    intro hc
    rcases List.mem_append.mp hc with h | h
    · exact hUVnn h
    · rcases List.mem_cons.mp h with h | h
      · exact absurd h (by decide)
      · exact hDnn h
  have hcpm_nil : commitPatternMatch (U ++ ' ' :: V) = some (U, V) := by
    have e : U ++ ' ' :: V = (L ++ '-' :: ds) ++ ' ' :: V := by rw [hUeq]
    rw [e, commitPatternMatch_concrete L ds V v0 vt hL2 hLu hds1 hdsd hVct hv0,
      hUeq]
  have hcpm_pos : commitPatternMatch ((U ++ ' ' :: V) ++ ' ' :: D) =
      some (U, V ++ ' ' :: D) := by
    have e : (U ++ ' ' :: V) ++ ' ' :: D =
        (L ++ '-' :: ds) ++ ' ' :: (V ++ ' ' :: D) := by
      rw [hUeq]; simp
    rw [e, commitPatternMatch_concrete L ds (V ++ ' ' :: D) v0 (vt ++ ' ' :: D)
      hL2 hLu hds1 hdsd (by rw [hVct]; simp) hv0, hUeq]
  have hsp_nil : pySplitWs1 (pyStrip V) = [V] := split1_verb_only V v0 vt hVct hVnw
  by_cases hB : B = []
  · subst hB
    rw [if_pos (show ([] : Str).isEmpty = true from rfl)]
    by_cases hD : D = []
    · subst hD
      have hstrip : pyStrip ((U ++ ' ' :: V) ++ [' ']) = U ++ ' ' :: V :=
        strip_head_line_nil U V hUhead hVr hVne
      have hfl : firstLineOf (U ++ ' ' :: V) = U ++ ' ' :: V :=
        firstLineOf_no_nl _ hUVnn
      have hbody : bodyAfterFirstLine (U ++ ' ' :: V) = none :=
        bodyAfterFirstLine_no_nl _ hUVnn
      have hstrip2 : pyStrip (U ++ ' ' :: V) = U ++ ' ' :: V := by
        conv_lhs => rw [← hstrip]
        rw [pyStrip_idem, hstrip]
      unfold parse_commit
      simp only [hstrip, hfl, hbody, hstrip2, hcpm_nil, hsp_nil]
      simp [secondOrEmpty, hkv]
    · have hstrip : pyStrip ((U ++ ' ' :: V) ++ ' ' :: D) =
          (U ++ ' ' :: V) ++ ' ' :: D :=
        strip_head_line_pos U V D hUhead hDr hD
      have hfl : firstLineOf ((U ++ ' ' :: V) ++ ' ' :: D) =
          (U ++ ' ' :: V) ++ ' ' :: D := firstLineOf_no_nl _ hHnn
      have hbody : bodyAfterFirstLine ((U ++ ' ' :: V) ++ ' ' :: D) = none :=
        bodyAfterFirstLine_no_nl _ hHnn
      have hstrip2 : pyStrip ((U ++ ' ' :: V) ++ ' ' :: D) =
          (U ++ ' ' :: V) ++ ' ' :: D := by
        conv_lhs => rw [← hstrip]
        rw [pyStrip_idem, hstrip]
      have hsp_pos : pySplitWs1 (pyStrip (V ++ ' ' :: D)) = [V, D] :=
        split1_verb_desc V D v0 vt hVct hVnw hDl hDr hD
      unfold parse_commit
      simp only [hstrip, hfl, hbody, hstrip2, hcpm_pos, hsp_pos]
      simp [secondOrEmpty, hkv]
  · have hBe : B.isEmpty = false := by
      cases hBc : B with
      | nil => exact absurd hBc hB
      | cons x xs => simp
    rw [if_neg (by simp [hBe])]
    have hlM : pyLStrip (((U ++ ' ' :: V) ++ ' ' :: D) ++ '\n' :: '\n' :: B) =
        ((U ++ ' ' :: V) ++ ' ' :: D) ++ '\n' :: '\n' :: B := by
      have e : ((U ++ ' ' :: V) ++ ' ' :: D) ++ '\n' :: '\n' :: B =
          U ++ (' ' :: (V ++ ' ' :: (D ++ '\n' :: '\n' :: B))) := by simp
      rw [e, hUhead]
    have hrM : pyRStrip (((U ++ ' ' :: V) ++ ' ' :: D) ++ '\n' :: '\n' :: B) =
        ((U ++ ' ' :: V) ++ ' ' :: D) ++ '\n' :: '\n' :: B := by
      have e : ((U ++ ' ' :: V) ++ ' ' :: D) ++ '\n' :: '\n' :: B =
          ((((U ++ ' ' :: V) ++ ' ' :: D) ++ ['\n', '\n'])) ++ B := by simp
      rw [e, pyRStrip_append, hBr, if_neg hB]
    have hsM : pyStrip (((U ++ ' ' :: V) ++ ' ' :: D) ++ '\n' :: '\n' :: B) =
        ((U ++ ' ' :: V) ++ ' ' :: D) ++ '\n' :: '\n' :: B := by
      unfold pyStrip
      rw [hlM, hrM]
    have hfl : firstLineOf (((U ++ ' ' :: V) ++ ' ' :: D) ++ '\n' :: '\n' :: B) =
        (U ++ ' ' :: V) ++ ' ' :: D :=
      firstLineOf_append_nl _ ('\n' :: B) hHnn
    have hbody0 : bodyAfterFirstLine
        (((U ++ ' ' :: V) ++ ' ' :: D) ++ '\n' :: '\n' :: B) =
        some ('\n' :: B) :=
      bodyAfterFirstLine_append_nl _ ('\n' :: B) hHnn
    have hbody : pyStrip ('\n' :: B) = B := by
      unfold pyStrip
      rw [show pyLStrip ('\n' :: B) = B from by
        rw [pyLStrip, List.dropWhile_cons, if_pos (by decide)]
        exact hBl]
      exact hBr
    by_cases hD : D = []
    · subst hD
      have hstripHL : pyStrip ((U ++ ' ' :: V) ++ [' ']) = U ++ ' ' :: V :=
        strip_head_line_nil U V hUhead hVr hVne
      unfold parse_commit
      simp only [hsM, hfl, hbody0, hbody, hstripHL, hcpm_nil, hsp_nil]
      simp [secondOrEmpty, hkv]
    · have hstripHL : pyStrip ((U ++ ' ' :: V) ++ ' ' :: D) =
          (U ++ ' ' :: V) ++ ' ' :: D :=
        strip_head_line_pos U V D hUhead hDr hD
      have hsp_pos : pySplitWs1 (pyStrip (V ++ ' ' :: D)) = [V, D] :=
        split1_verb_desc V D v0 vt hVct hVnw hDl hDr hD
      unfold parse_commit
      simp only [hsM, hfl, hbody0, hbody, hstripHL, hcpm_pos, hsp_pos]
      simp [secondOrEmpty, hkv]

/-- C9 counterexample: for fields whose issue id does not match the
issue-id shape (here "A1-2"), parse_commit on the rendered message loses
the issue id (None), so the outer render of the round trip raises
(None.upper()), modelled as none — even though the verb is a table key
and the description has no line breaks, as the claim requires. -/
theorem c9_counterexample :
    roundTrip ⟨"A1-2".toList, "Fixed".toList, "bug".toList, []⟩ = none
      ∧ isVerbKey "Fixed".toList = true
      ∧ '\n' ∉ "bug".toList := by
  decide

/-- C9 amended: render-parse-render is render for all fields whose verb
is a table key, whose description contains no line breaks, and whose
issue id validates against the issue-id pattern (the extra hypothesis the
counterexample forces). -/
theorem c9_render_roundtrip (a : Answers)
    (hiss : validate_issue_id a.issue = true)
    (hverb : isVerbKey a.verb = true)
    (hdesc : '\n' ∉ a.description) :
    roundTrip a = some (message a) := by
  have hU : issueIdFullMatch (pyStrip (a.issue.map pyToUpper)) = true := hiss
  obtain ⟨L, ds, hUeq, hL2, hds1, hLu, hdsd⟩ := issueIdFullMatch_inv _ hU
  have hVmem : a.verb ∈ VERB_KEYS := by
    have h2 : VERB_KEYS.elem a.verb = true := hverb
    exact List.elem_iff.mp h2
  have hVnw : ∀ c ∈ a.verb, pyIsSpace c = false := fun c hc => by
    have := verb_keys_no_ws a.verb hVmem c hc
    simpa using this
  obtain ⟨v0, vt, hVct⟩ : ∃ v0 vt, a.verb = v0 :: vt := by
    cases hv : a.verb with
    | nil => exact absurd hv (verb_keys_nonempty a.verb hVmem)
    | cons x xs => exact ⟨x, xs, rfl⟩
  have hDl := pyStrip_fix_l a.description
  have hDr := pyStrip_fix_r a.description
  have hDnn : '\n' ∉ pyStrip a.description := fun hc =>
    hdesc (mem_pyStrip_imp _ _ hc)
  have hBl := pyStrip_fix_l a.body
  have hBr := pyStrip_fix_r a.body
  have hmsg : message a =
      (if (pyStrip a.body).isEmpty then
        pyStrip (a.issue.map pyToUpper) ++ ' ' :: a.verb ++ ' ' ::
          pyStrip a.description
      else (pyStrip (a.issue.map pyToUpper) ++ ' ' :: a.verb ++ ' ' ::
          pyStrip a.description) ++ '\n' :: '\n' :: pyStrip a.body) := rfl
  have hpc := parse_render_core (pyStrip (a.issue.map pyToUpper)) a.verb
    (pyStrip a.description) (pyStrip a.body) L ds v0 vt hUeq hL2 hds1 hLu hdsd
    hVct hVnw hverb hDl hDr hDnn hBl hBr
  have hUle : ∀ c ∈ pyStrip (a.issue.map pyToUpper), pyToUpper c = c := by
    intro c hc
    rw [hUeq] at hc
    rcases List.mem_append.mp hc with h | h
    · exact pyToUpper_fix_le c (isUpper_le_Z c (hLu c h))
    · rcases List.mem_cons.mp h with h | h
      · rw [h]; decide
      · exact pyToUpper_fix_le c (isDigit_le_Z c (hdsd c h))
  have hUfix : pyStrip ((pyStrip (a.issue.map pyToUpper)).map pyToUpper) =
      pyStrip (a.issue.map pyToUpper) := by
    rw [map_fix _ _ hUle, pyStrip_idem]
  have hm2 : message ⟨pyStrip (a.issue.map pyToUpper), a.verb,
      pyStrip a.description, pyStrip a.body⟩ = message a := by
    unfold message
    simp only [hUfix, pyStrip_idem]
  unfold roundTrip
  rw [hmsg, hpc]
  simp only [answersOfParsed, pyStrFormat, Option.map_some']
  rw [← hmsg]
  exact congrArg some hm2

/-- C9 amended, witness at a concrete answer record exercising trimming,
uppercasing and a non-empty body. -/
theorem c9_render_roundtrip_witness :
    (validate_issue_id " eng-12 ".toList = true)
      ∧ (isVerbKey "Added".toList = true)
      ∧ ('\n' ∉ " new feature ".toList)
      ∧ roundTrip ⟨" eng-12 ".toList, "Added".toList, " new feature ".toList,
          " body text ".toList⟩ =
        some (message ⟨" eng-12 ".toList, "Added".toList,
          " new feature ".toList, " body text ".toList⟩) :=
  ⟨by decide, by decide, by decide,
   c9_render_roundtrip
     ⟨" eng-12 ".toList, "Added".toList, " new feature ".toList,
       " body text ".toList⟩
     (by decide) (by decide) (by decide)⟩

/-- C8 witness at a concrete answer record with a non-empty body. -/
theorem c8_render_shape_witness :
    (pyStrip "  resolves the timeout  ".toList ≠ [])
      ∧ message ⟨" eng-123 ".toList, "Fixed".toList, " auth bug ".toList,
          "  resolves the timeout  ".toList⟩ =
        specHeader ⟨" eng-123 ".toList, "Fixed".toList, " auth bug ".toList,
          "  resolves the timeout  ".toList⟩ ++
          '\n' :: '\n' :: pyStrip "  resolves the timeout  ".toList :=
  ⟨by decide,
   (c8_render_shape ⟨" eng-123 ".toList, "Fixed".toList, " auth bug ".toList,
      "  resolves the timeout  ".toList⟩).2 (by decide)⟩

end CzLinear
